import Mathlib

/-!
# Batch executor (`src/batch/batch.go`)

A shallow embedding of the batching task executor and the properties of its
dispatch path (`runBatch`) and of its accumulation state machine (`addTask`,
`newBatch`, `expireBatch`).

The bulk-execution path is `runBatch`; the executor's transitions are `SubmitF` /
`addTask`, `newBatch` and the locked section of `expireBatch`, each taken as one atomic
step (it runs from `Lock` to the deferred `Unlock`); a run is a sequence of such steps.

Conventions of the embedding:

* Go's `error` interface value is an `Option E`: `none` is `nil`.
* A `*futures.Future[R]` is a handle of an abstract type `F`; the calls the code makes
  on it (`Complete`, `Fail`) are recorded, in order, in a call log.
* A `go f(x)` statement is recorded, in order, as a goroutine started with its argument.
* Go's `int` is the 64-bit two's-complement integer: `sequenceNum++` wraps (`wrapInt`).
* `make([]T, 0, be.maxSize)` panics on a capacity that is negative or too large for the
  task type; the bound is a constant of the run-time and of `T`, the parameter `Alloc`
  of `newBatch`, `addTask`, `SubmitF` and of the runs.
-/

namespace Batch

/-! ## Data model -/

/-- Modelled from the spec: the declaration of `results.Result[R]` (package
`github.com/abevier/tsk/results`) is missing from the sources; `runBatch` reads its two
fields `Val` and `Err`, a value-or-error outcome per task. -/
structure Result (R E : Type) where
  Val : R
  Err : Option E
deriving DecidableEq

/-- The struct `batch[T, R]`: `id`, `tasks`, `futures`. -/
structure batch (T F : Type) where
  id : Int
  tasks : List T
  futures : List F
deriving DecidableEq

/-- The type `RunBatchFunction[T, R]`: from the tasks to `(results, error)`. -/
abbrev RunBatchFunction (T R E : Type) := List T → List (Result R E) × Option E

/-- One observable call made by `runBatch`: the bulk function on a task sequence, or
`Complete(val)` / `Fail(err)` on a future. -/
inductive Call (T R E F : Type) where
  | run (tasks : List T)
  | Complete (f : F) (val : R)
  | Fail (f : F) (err : Option E)
deriving DecidableEq

/-- The future a call resolves; `none` for the call of the bulk function. -/
def Call.target {T R E F : Type} : Call T R E F → Option F
  | Call.run _ => none
  | Call.Complete f _ => some f
  | Call.Fail f _ => some f

/-- Whether the call is a `Complete`. -/
def Call.isComplete {T R E F : Type} : Call T R E F → Bool
  | Call.Complete _ _ => true
  | _ => false

/-- What one execution of `runBatch` did: its calls in order, and whether it stopped in a
run-time panic (an index out of range). -/
structure Trace (T R E F : Type) where
  calls : List (Call T R E F)
  panicked : Bool
deriving DecidableEq

/-! ## `runBatch` -/

/-- The loop `for _, f := range b.futures { f.Fail(err) }`. -/
def failAll {T R E F : Type} (futures : List F) (err : Option E) : List (Call T R E F) :=
  futures.map (fun f => Call.Fail f err)

/-- The body of `for i, r := range res` for one `r`, once `b.futures[i]` is `f`: `err` is
the outer variable of `runBatch`. -/
def resolveOne {T R E F : Type} (err : Option E) (f : F) (r : Result R E) : Call T R E F :=
  match r.Err with
  | some _ => Call.Fail f err
  | none => Call.Complete f r.Val

/-- The loop `for i, r := range res { ... b.futures[i] ... }` from index `i` on; indexing
`b.futures` out of range panics and ends the loop. -/
def resolveFrom {T R E F : Type} (futures : List F) (err : Option E) :
    Nat → List (Result R E) → Trace T R E F
  | _, [] => { calls := [], panicked := false }
  | i, r :: rest =>
    match futures[i]? with
    | none => { calls := [], panicked := true }
    | some f =>
      let t := resolveFrom futures err (i + 1) rest
      { calls := resolveOne err f r :: t.calls, panicked := t.panicked }

/-- The method `BatchExecutor.runBatch`, for the bulk function `run` of the executor. -/
def runBatch {T R E F : Type} (run : RunBatchFunction T R E) (b : batch T F) :
    Trace T R E F :=
  let res := (run b.tasks).1
  let err := (run b.tasks).2
  if err.isSome then
    { calls := Call.run b.tasks :: failAll b.futures err, panicked := false }
  else if res.length ≠ b.tasks.length then
    { calls := Call.run b.tasks :: failAll b.futures err, panicked := false }
  else
    let t := resolveFrom b.futures err 0 res
    { calls := Call.run b.tasks :: t.calls, panicked := t.panicked }

/-! ## The executor: `addTask`, `newBatch`, `expireBatch` -/

/-- Go's `int` after an arithmetic operation: the 64-bit two's-complement value of the
mathematical result (overflow wraps around). -/
def wrapInt (x : Int) : Int := (x + 2 ^ 63) % 2 ^ 64 - 2 ^ 63

/-- The struct `BatchOpts`; a `time.Duration` is an integer count of nanoseconds. -/
structure BatchOpts where
  MaxSize : Int
  MaxLinger : Int
deriving DecidableEq

/-- The struct `BatchExecutor[T, R]`, without the mutex `m` and the bulk function `run`:
no transition below reads or writes them (`runBatch` takes `run` as its argument). A
batch pointer is its value here: the executor holds the only pointer through which a
batch is written (`currentBatch`), and gives it up in the statement after each
`go be.runBatch(be.currentBatch)`. -/
structure BatchExecutor (T F : Type) where
  sequenceNum : Int
  currentBatch : Option (batch T F)
  maxSize : Int
  maxLinger : Int
deriving DecidableEq

/-- A goroutine started by a `go` statement, with its argument. -/
inductive Goroutine (T F : Type) where
  | runBatch (b : batch T F)
  | expireBatch (batchId : Int)
deriving DecidableEq

/-- The effect of one call of a method of the executor, from lock to unlock: the executor
afterwards, the goroutines the call started (in order), and the value returned, `none`
when the call ended in a run-time panic. -/
structure Ret (T F α : Type) where
  be : BatchExecutor T F
  started : List (Goroutine T F)
  val : Option α
deriving DecidableEq

/-- The function `NewExecutor`. -/
def NewExecutor {T F : Type} (opts : BatchOpts) : BatchExecutor T F :=
  { sequenceNum := 0
    currentBatch := none
    maxSize := opts.MaxSize
    maxLinger := opts.MaxLinger }

/-- The method `batch.add`. -/
def batch.add {T F : Type} (b : batch T F) (task : T) (future : F) : batch T F :=
  { b with tasks := b.tasks ++ [task], futures := b.futures ++ [future] }

/-- What the run-time accepts as a slice capacity for the task type `T`: `make([]T, 0, cap)`
panics (`makeslice: cap out of range`) when `cap` is negative or when `cap` elements of
`T` exceed the allocation limit of the target, that is when `cap > maxCap` with `maxCap`
the quotient of that limit (`maxAlloc`) by the size of `T` (no bound beyond the range of
`int` for a `T` of size zero). These are constants of the Go run-time and of the
instantiation, not of this repository, hence a parameter. One element always fits
(`fitsOne`): `addTask` is handed a task, so a value of `T` exists in memory. (An accepted
capacity that the machine then fails to allocate ends the program with a fatal error;
that is outside this model.) -/
structure Alloc where
  maxCap : Int
  fitsOne : 1 ≤ maxCap

/-- The bound for tasks of 8 bytes (`T = int`) on a 64-bit Linux target, where `maxAlloc`
is 2^48 bytes: 2^45 elements. -/
def intAlloc : Alloc :=
  { maxCap := 2 ^ 45, fitsOne := by decide }

/-- The method `BatchExecutor.newBatch`. The counter is incremented first; then
`make([]T, 0, be.maxSize)` panics on a capacity that is negative or too large for the
task type (see `Alloc`), before the timer is started. -/
def newBatch {T F : Type} (al : Alloc) (be : BatchExecutor T F) : Ret T F (batch T F) :=
  let be1 := { be with sequenceNum := wrapInt (be.sequenceNum + 1) }
  if be1.maxSize < 0 ∨ al.maxCap < be1.maxSize then
    { be := be1, started := [], val := none }
  else
    let b : batch T F := { id := be1.sequenceNum, tasks := [], futures := [] }
    { be := be1, started := [Goroutine.expireBatch b.id], val := some b }

/-- The method `BatchExecutor.addTask`. -/
def addTask {T F : Type} (al : Alloc) (be : BatchExecutor T F) (task : T) (future : F) :
    Ret T F Unit :=
  let r : Ret T F (batch T F) :=
    match be.currentBatch with
    | none => newBatch al be
    | some b => { be := be, started := [], val := some b }
  match r.val with
  | none => { be := r.be, started := r.started, val := none }
  | some b =>
    let b1 := b.add task future
    if (b1.tasks.length : Int) ≥ r.be.maxSize then
      { be := { r.be with currentBatch := none }
        started := r.started ++ [Goroutine.runBatch b1]
        val := some () }
    else
      { be := { r.be with currentBatch := some b1 }
        started := r.started
        val := some () }

/-- The method `BatchExecutor.expireBatch` after its sleep: the section under the lock. -/
def expireBatch {T F : Type} (be : BatchExecutor T F) (batchId : Int) : Ret T F Unit :=
  match be.currentBatch with
  | some b =>
    if b.id = batchId then
      { be := { be with currentBatch := none }
        started := [Goroutine.runBatch b]
        val := some () }
    else
      { be := be, started := [], val := some () }
  | none => { be := be, started := [], val := some () }

/-! ## Runs of the executor -/

/-- One step of a run: a submission (`addTask` with the task and the future made for it)
or the firing of a linger timer (`expireBatch` with the timer's batch id). -/
inductive Op (T F : Type) where
  | submit (task : T) (future : F)
  | timer (batchId : Int)
deriving DecidableEq

/-- The executor together with the history of a run: every goroutine started so far,
oldest first, and whether some call has panicked. -/
structure World (T F : Type) where
  be : BatchExecutor T F
  started : List (Goroutine T F)
  panicked : Bool
deriving DecidableEq

/-- The call an `Op` stands for. -/
def Op.call {T F : Type} (al : Alloc) (be : BatchExecutor T F) : Op T F → Ret T F Unit
  | Op.submit task future => addTask al be task future
  | Op.timer batchId => expireBatch be batchId

/-- One step of a run. A panic is recorded and the run goes on from the state the
panicking call left behind (the deferred `Unlock` has run). -/
def World.step {T F : Type} (w : World T F) (al : Alloc) (op : Op T F) : World T F :=
  let r := op.call al w.be
  { be := r.be
    started := w.started ++ r.started
    panicked := w.panicked || r.val.isNone }

/-- A run: the steps in order. -/
def World.exec {T F : Type} (w : World T F) (al : Alloc) (ops : List (Op T F)) :
    World T F :=
  ops.foldl (fun v op => v.step al op) w

/-- The run's start: a freshly constructed executor. -/
def World.init {T F : Type} (opts : BatchOpts) : World T F :=
  { be := NewExecutor opts, started := [], panicked := false }

/-- The batch a goroutine dispatches, if it is a `runBatch`. -/
def Goroutine.batch? {T F : Type} : Goroutine T F → Option (batch T F)
  | Goroutine.runBatch b => some b
  | Goroutine.expireBatch _ => none

/-- The batches handed to `runBatch` among the goroutines, in dispatch order. -/
def dispatchedOf {T F : Type} (gs : List (Goroutine T F)) : List (batch T F) :=
  gs.filterMap Goroutine.batch?

/-- The batches handed to `runBatch` so far, in dispatch order. -/
def World.dispatched {T F : Type} (w : World T F) : List (batch T F) :=
  dispatchedOf w.started

/-- The tasks of the open batch, none when no batch is open. -/
def openTasks {T F : Type} (be : BatchExecutor T F) : List T :=
  match be.currentBatch with
  | some b => b.tasks
  | none => []

/-- The task a step submits, if it is a submission. -/
def Op.task? {T F : Type} : Op T F → Option T
  | Op.submit task _ => some task
  | Op.timer _ => none

/-- The submissions of the pairs (task, future), in order. -/
def submits {T F : Type} (subs : List (T × F)) : List (Op T F) :=
  subs.map (fun p => Op.submit p.1 p.2)

/-- The tasks a run has taken so far that are in a batch: those of the dispatched
batches, in dispatch order, followed by those of the open batch. -/
def World.allTasks {T F : Type} (w : World T F) : List T :=
  w.dispatched.flatMap batch.tasks ++ openTasks w.be

/-- The tasks the steps submit, in submission order. -/
def submittedTasks {T F : Type} (ops : List (Op T F)) : List T :=
  ops.filterMap Op.task?

/-- The invariant of the batch ids, for an executor, the batches dispatched so far and a
bound `n` on the number of steps taken: the counter is between 0 and `n`, the dispatched
ids are pairwise distinct and at most the counter, and an open batch carries the
counter as its id, above every dispatched id. -/
def IdInv {T F : Type} (be : BatchExecutor T F) (ds : List (batch T F)) (n : Nat) : Prop :=
  0 ≤ be.sequenceNum ∧ be.sequenceNum ≤ (n : Int) ∧
    (ds.map batch.id).Nodup ∧
    (∀ d ∈ ds, d.id ≤ be.sequenceNum) ∧
    (∀ c, be.currentBatch = some c →
      c.id = be.sequenceNum ∧ ∀ d ∈ ds, d.id < be.sequenceNum)

/-- The futures of the open batch, none when no batch is open. -/
def openFutures {T F : Type} (be : BatchExecutor T F) : List F :=
  match be.currentBatch with
  | some b => b.futures
  | none => []

/-- The `k`-th run of `m` consecutive elements of a sequence (from index `k * m`). -/
def chunk {α : Type} (m k : Nat) (l : List α) : List α :=
  (l.drop (k * m)).take m

/-- The state after the submissions `subs`, with `subs.length = q * m + r` and `r < m`,
of an executor with `maxSize = m`: `q` full chunks dispatched, the rest open. -/
def Sized {T F : Type} (m q r : Nat) (subs : List (T × F)) (w : World T F) : Prop :=
  w.be.maxSize = (m : Int) ∧
    w.dispatched.map batch.tasks
      = (List.range q).map (fun k => chunk m k (subs.map Prod.fst)) ∧
    w.dispatched.map batch.futures
      = (List.range q).map (fun k => chunk m k (subs.map Prod.snd)) ∧
    openTasks w.be = (subs.map Prod.fst).drop (q * m) ∧
    openFutures w.be = (subs.map Prod.snd).drop (q * m) ∧
    (r = 0 → w.be.currentBatch = none) ∧
    (r ≠ 0 → ∃ c, w.be.currentBatch = some c)

/-- The pairs (task, future) of a batch, index by index: `(tasks[i], futures[i])`. -/
def batch.pairs {T F : Type} (b : batch T F) : List (T × F) :=
  b.tasks.zip b.futures

/-- Every batch of a run: the dispatched ones in dispatch order, then the open one. -/
def World.batches {T F : Type} (w : World T F) : List (batch T F) :=
  w.dispatched ++ w.be.currentBatch.toList

/-- The task and the future a step hands to `addTask`, if it is a submission. -/
def Op.pair? {T F : Type} : Op T F → Option (T × F)
  | Op.submit task future => some (task, future)
  | Op.timer _ => none

/-- The (task, future) pairs the steps submit, in submission order. -/
def submittedPairs {T F : Type} (ops : List (Op T F)) : List (T × F) :=
  ops.filterMap Op.pair?

/-- The open batch, if any, has as many futures as tasks. -/
def OpenAligned {T F : Type} (be : BatchExecutor T F) : Prop :=
  ∀ c, be.currentBatch = some c → c.tasks.length = c.futures.length

/-- The batch id a goroutine's timer carries, if it is an `expireBatch`. -/
def Goroutine.timer? {T F : Type} : Goroutine T F → Option Int
  | Goroutine.runBatch _ => none
  | Goroutine.expireBatch batchId => some batchId

/-- The batch ids of the linger timers among the goroutines, in starting order. -/
def timersOf {T F : Type} (gs : List (Goroutine T F)) : List Int :=
  gs.filterMap Goroutine.timer?

/-- The batch ids of the linger timers started so far, in starting order. -/
def World.timers {T F : Type} (w : World T F) : List Int :=
  timersOf w.started

/-- Whether a step calls `newBatch`: it is a submission and no batch is open. -/
def opensBatch {T F : Type} (be : BatchExecutor T F) : Op T F → Bool
  | Op.submit _ _ => be.currentBatch.isNone
  | Op.timer _ => false

/-- The method `BatchExecutor.SubmitF`. The constructor `futures.New[R]` (package
`github.com/abevier/tsk/futures`, missing from the sources) is the parameter `New`: from
the context to the future it makes. The context type `C` is arbitrary: a cancelled or
expired context is one of its values. -/
def SubmitF {C T F : Type} (New : C → F) (al : Alloc) (be : BatchExecutor T F) (ctx : C)
    (task : T) : Ret T F F :=
  let future := New ctx
  let r := addTask al be task future
  { be := r.be, started := r.started, val := r.val.map (fun _ => future) }

/-- A batch with its futures made anonymous: its id, its tasks and one `()` per future. -/
def batch.shape {T F : Type} (b : batch T F) : batch T Unit :=
  { id := b.id, tasks := b.tasks, futures := b.futures.map (fun _ => ()) }

/-- An executor with the futures of its open batch made anonymous. -/
def BatchExecutor.shape {T F : Type} (be : BatchExecutor T F) : BatchExecutor T Unit :=
  { sequenceNum := be.sequenceNum
    currentBatch := be.currentBatch.map batch.shape
    maxSize := be.maxSize
    maxLinger := be.maxLinger }

/-- A goroutine with the futures of its batch made anonymous. -/
def Goroutine.shape {T F : Type} : Goroutine T F → Goroutine T Unit
  | Goroutine.runBatch b => Goroutine.runBatch b.shape
  | Goroutine.expireBatch batchId => Goroutine.expireBatch batchId

/-- The effect of a call with all futures made anonymous: the executor afterwards, the
goroutines started, and whether the call returned. -/
def Ret.shape {T F α : Type} (r : Ret T F α) : Ret T Unit Unit :=
  { be := r.be.shape
    started := r.started.map Goroutine.shape
    val := r.val.map (fun _ => ()) }

/-- The content of a batch: its tasks and its futures. -/
def batch.content {T F : Type} (b : batch T F) : List T × List F :=
  (b.tasks, b.futures)

/-- The content of the batch that holds one submission alone. -/
def alone {T F : Type} (p : T × F) : List T × List F :=
  ([p.1], [p.2])

/-- The open batch, if any, holds at least one task and fewer than `maxSize`. -/
def OpenSized {T F : Type} (be : BatchExecutor T F) : Prop :=
  ∀ c, be.currentBatch = some c → 1 ≤ c.tasks.length ∧ (c.tasks.length : Int) < be.maxSize

/-! ## Theorems: `runBatch` -/

theorem failAll_target {T R E F : Type} (futures : List F) (err : Option E) :
    (failAll futures err : List (Call T R E F)).map Call.target = futures.map some := by
  simp [failAll, Call.target]

theorem failAll_isComplete {T R E F : Type} (futures : List F) (err : Option E) :
    ∀ c ∈ (failAll futures err : List (Call T R E F)), c.isComplete = false := by
  intro c hc
  simp only [failAll, List.mem_map] at hc
  obtain ⟨f, -, rfl⟩ := hc
  rfl

theorem resolveOne_target {T R E F : Type} (err : Option E) (f : F) (r : Result R E) :
    (resolveOne err f r : Call T R E F).target = some f := by
  unfold resolveOne
  cases r.Err <;> rfl

/-- The loop over `res` pairs the futures from index `i` on with the results, position by
position, and panics exactly when the results outnumber those futures. -/
theorem resolveFrom_eq {T R E F : Type} (futures : List F) (err : Option E) :
    ∀ (res : List (Result R E)) (i : Nat),
      (resolveFrom futures err i res : Trace T R E F) =
        { calls := List.zipWith (resolveOne err) (futures.drop i) res
          panicked := decide ((futures.drop i).length < res.length) } := by
  intro res
  induction res with
  | nil => intro i; simp [resolveFrom]
  | cons r rest ih =>
    intro i
    unfold resolveFrom
    cases hf : futures[i]? with
    | none =>
      have hi : futures.length ≤ i := List.getElem?_eq_none_iff.mp hf
      simp [List.drop_eq_nil_of_le hi]
    | some f =>
      obtain ⟨hi, hfi⟩ := List.getElem?_eq_some_iff.mp hf
      have hd : futures.drop i = f :: futures.drop (i + 1) := by
        rw [List.drop_eq_getElem_cons hi, hfi]
      simp [ih (i + 1), hd]

/-- The branch `err != nil` of `runBatch`. -/
theorem runBatch_of_err {T R E F : Type} (run : RunBatchFunction T R E) (b : batch T F)
    (e : E) (he : (run b.tasks).2 = some e) :
    runBatch run b =
      { calls := Call.run b.tasks :: failAll b.futures (some e), panicked := false } := by
  simp [runBatch, he]

/-- The branch `len(res) != len(b.tasks)` of `runBatch`. -/
theorem runBatch_of_mismatch {T R E F : Type} (run : RunBatchFunction T R E)
    (b : batch T F) (he : (run b.tasks).2 = none)
    (hlen : (run b.tasks).1.length ≠ b.tasks.length) :
    runBatch run b =
      { calls := Call.run b.tasks :: failAll b.futures none, panicked := false } := by
  simp [runBatch, he, hlen]

/-- The positional branch of `runBatch`. -/
theorem runBatch_of_match {T R E F : Type} (run : RunBatchFunction T R E)
    (b : batch T F) (he : (run b.tasks).2 = none)
    (hlen : (run b.tasks).1.length = b.tasks.length) :
    runBatch run b =
      { calls := Call.run b.tasks :: List.zipWith (resolveOne none) b.futures (run b.tasks).1
        panicked := decide (b.futures.length < (run b.tasks).1.length) } := by
  simp [runBatch, he, hlen, resolveFrom_eq]

theorem zipWith_resolveOne_target {T R E F : Type} (err : Option E) :
    ∀ (futures : List F) (res : List (Result R E)), futures.length = res.length →
      (List.zipWith (resolveOne err) futures res : List (Call T R E F)).map Call.target =
        futures.map some := by
  intro futures
  induction futures with
  | nil => intro res _; simp
  | cons f fs ih =>
    intro res h
    cases res with
    | nil => simp at h
    | cons r rs =>
      simp only [List.length_cons, Nat.add_right_cancel_iff] at h
      simp [resolveOne_target, ih rs h]

/-- C1: for a batch with as many futures as tasks and any bulk function (whatever it
returns for the tasks: an outright error, results of the wrong length, or results of the
right length), the call log of `runBatch` is the one call of `run` on `b.tasks` followed
by resolution calls whose targets are, position by position, exactly `b.futures` (so
each future gets one `Complete` or `Fail`, none is skipped, none gets two, and no call of
`run` is among them), and no index of `b.futures` is out of range (no panic). -/
theorem runBatch_resolves_every_future_once {T R E F : Type}
    (run : RunBatchFunction T R E) (b : batch T F)
    (h : b.tasks.length = b.futures.length) :
    (runBatch run b).panicked = false ∧
      ∃ rs : List (Call T R E F),
        (runBatch run b).calls = Call.run b.tasks :: rs ∧
        rs.map Call.target = b.futures.map some := by
  cases he : (run b.tasks).2 with
  | some e =>
    rw [runBatch_of_err run b e he]
    exact ⟨rfl, _, rfl, failAll_target _ _⟩
  | none =>
    by_cases hlen : (run b.tasks).1.length = b.tasks.length
    · rw [runBatch_of_match run b he hlen]
      refine ⟨?_, _, rfl, zipWith_resolveOne_target _ _ _ (by omega)⟩
      simp only [decide_eq_false_iff_not]
      omega
    · rw [runBatch_of_mismatch run b he hlen]
      exact ⟨rfl, _, rfl, failAll_target _ _⟩

/-- Witness of C1: a batch of two tasks whose bulk function reports one value and one
per-task error. -/
theorem runBatch_resolves_every_future_once_witness :
    (runBatch (fun ts => (ts.map (fun t => ({ Val := 2 * t, Err := if t = 4 then some 1 else none } : Result Nat Nat)), none))
        ({ id := 1, tasks := [3, 4], futures := [10, 11] } : batch Nat Nat)).panicked = false ∧
      ∃ rs : List (Call Nat Nat Nat Nat),
        (runBatch (fun ts => (ts.map (fun t => ({ Val := 2 * t, Err := if t = 4 then some 1 else none } : Result Nat Nat)), none))
          ({ id := 1, tasks := [3, 4], futures := [10, 11] } : batch Nat Nat)).calls
            = Call.run [3, 4] :: rs ∧
        rs.map Call.target = [some 10, some 11] :=
  runBatch_resolves_every_future_once _ _ rfl

/-- C2: when `run` returns no outright error and as many results as tasks, the future at
index `i` whose result `r` at the same index carries no per-task error gets, as the
`i`-th resolution call of the batch, `Complete(r.Val)`; the results at the other indices
are arbitrary and play no part. -/
theorem runBatch_completes_with_own_value {T R E F : Type}
    (run : RunBatchFunction T R E) (b : batch T F) (i : Nat) (f : F) (r : Result R E)
    (he : (run b.tasks).2 = none) (hlen : (run b.tasks).1.length = b.tasks.length)
    (hf : b.futures[i]? = some f) (hr : (run b.tasks).1[i]? = some r)
    (hok : r.Err = none) :
    (runBatch run b).calls[i + 1]? = some (Call.Complete f r.Val) := by
  rw [runBatch_of_match run b he hlen]
  simp [List.getElem?_zipWith, hf, hr, resolveOne, hok]

/-- Witness of C2: the middle task of three fails on its own; the last one is completed
with its own value. -/
theorem runBatch_completes_with_own_value_witness :
    (runBatch (fun ts => (ts.map (fun t => ({ Val := 2 * t, Err := if t = 4 then some 1 else none } : Result Nat Nat)), none))
        ({ id := 1, tasks := [3, 4, 5], futures := [10, 11, 12] } : batch Nat Nat)).calls[2 + 1]?
      = some (Call.Complete 12 10) :=
  runBatch_completes_with_own_value _ _ 2 12 { Val := 10, Err := none } rfl rfl rfl rfl rfl

/-- C3: when `run` returns an outright error `e`, whatever results come with it, the
call log is the call of `run` followed by `Fail(e)` on every future of the batch, in
order; no call is a `Complete`. -/
theorem runBatch_total_failure {T R E F : Type}
    (run : RunBatchFunction T R E) (b : batch T F) (e : E)
    (he : (run b.tasks).2 = some e) :
    (runBatch run b).calls
        = Call.run b.tasks :: b.futures.map (fun f => Call.Fail f (some e)) ∧
      (runBatch run b).panicked = false ∧
      ∀ c ∈ (runBatch run b).calls, c.isComplete = false := by
  rw [runBatch_of_err run b e he]
  refine ⟨rfl, rfl, ?_⟩
  intro c hc
  rcases List.mem_cons.mp hc with rfl | hc
  · rfl
  · exact failAll_isComplete _ _ c hc

/-- Witness of C3: the bulk function returns the error 9 together with a full result
sequence. -/
theorem runBatch_total_failure_witness :
    (runBatch (fun ts => (ts.map (fun t => ({ Val := 2 * t, Err := none } : Result Nat Nat)), some 9))
        ({ id := 1, tasks := [3, 4], futures := [10, 11] } : batch Nat Nat)).calls
        = Call.run [3, 4] :: [10, 11].map (fun f => Call.Fail f (some 9)) ∧
      (runBatch (fun ts => (ts.map (fun t => ({ Val := 2 * t, Err := none } : Result Nat Nat)), some 9))
        ({ id := 1, tasks := [3, 4], futures := [10, 11] } : batch Nat Nat)).panicked = false ∧
      ∀ c ∈ (runBatch (fun ts => (ts.map (fun t => ({ Val := 2 * t, Err := none } : Result Nat Nat)), some 9))
        ({ id := 1, tasks := [3, 4], futures := [10, 11] } : batch Nat Nat)).calls,
        c.isComplete = false :=
  runBatch_total_failure _ _ 9 rfl

/-- C4, the code at a failing input: one task whose result carries the per-task error 7,
no outright error. The future is failed with the outer `err`, which is `nil` there, and
not with the per-task error. -/
theorem runBatch_perTaskError_fails_with_nil :
    runBatch (fun _ => ([({ Val := 0, Err := some 7 } : Result Nat Nat)], none))
        ({ id := 1, tasks := [5], futures := [10] } : batch Nat Nat)
      = { calls := [Call.run [5], Call.Fail 10 none], panicked := false } ∧
    Call.Fail 10 none ≠ (Call.Fail 10 (some 7) : Call Nat Nat Nat Nat) := by
  constructor
  · rfl
  · decide

/-- C5: when `run` returns no outright error and a result sequence whose length differs
from the number of tasks, the call log is the call of `run` followed by one `Fail` call
on every future of the batch, in order (each carrying the outer `err`, `nil` on this
path); no call is a `Complete` and no future is left without a call. -/
theorem runBatch_mismatch_fails_all {T R E F : Type}
    (run : RunBatchFunction T R E) (b : batch T F)
    (he : (run b.tasks).2 = none)
    (hlen : (run b.tasks).1.length ≠ b.tasks.length) :
    (runBatch run b).calls
        = Call.run b.tasks :: b.futures.map (fun f => Call.Fail f none) ∧
      (runBatch run b).panicked = false ∧
      ∀ c ∈ (runBatch run b).calls, c.isComplete = false := by
  rw [runBatch_of_mismatch run b he hlen]
  refine ⟨rfl, rfl, ?_⟩
  intro c hc
  rcases List.mem_cons.mp hc with rfl | hc
  · rfl
  · exact failAll_isComplete _ _ c hc

/-- Witness of C5: two tasks, an empty result sequence. -/
theorem runBatch_mismatch_fails_all_witness :
    (runBatch (fun _ => (([] : List (Result Nat Nat)), none))
        ({ id := 1, tasks := [3, 4], futures := [10, 11] } : batch Nat Nat)).calls
        = Call.run [3, 4] :: [10, 11].map (fun f => Call.Fail f none) ∧
      (runBatch (fun _ => (([] : List (Result Nat Nat)), none))
        ({ id := 1, tasks := [3, 4], futures := [10, 11] } : batch Nat Nat)).panicked = false ∧
      ∀ c ∈ (runBatch (fun _ => (([] : List (Result Nat Nat)), none))
        ({ id := 1, tasks := [3, 4], futures := [10, 11] } : batch Nat Nat)).calls,
        c.isComplete = false :=
  runBatch_mismatch_fails_all _ _ rfl (by decide)

/-! ## Theorems: the executor -/

theorem wrapInt_eq_self (x : Int) (hlo : -(2 ^ 63) ≤ x) (hhi : x < 2 ^ 63) :
    wrapInt x = x := by
  unfold wrapInt
  omega

theorem dispatchedOf_append {T F : Type} (gs hs : List (Goroutine T F)) :
    dispatchedOf (gs ++ hs) = dispatchedOf gs ++ dispatchedOf hs := by
  simp [dispatchedOf]

/-- A submission into an open batch. -/
theorem addTask_of_open {T F : Type} (al : Alloc) (be : BatchExecutor T F) (b : batch T F)
    (task : T) (future : F) (h : be.currentBatch = some b) :
    addTask al be task future =
      if ((b.add task future).tasks.length : Int) ≥ be.maxSize then
        { be := { be with currentBatch := none }
          started := [Goroutine.runBatch (b.add task future)]
          val := some () }
      else
        { be := { be with currentBatch := some (b.add task future) }
          started := []
          val := some () } := by
  simp [addTask, h]

/-- A submission when no batch is open and `make` accepts the capacity. -/
theorem addTask_of_closed {T F : Type} (al : Alloc) (be : BatchExecutor T F)
    (task : T) (future : F) (h : be.currentBatch = none) (hm : 0 ≤ be.maxSize)
    (hcap : be.maxSize ≤ al.maxCap) :
    addTask al be task future =
      if (1 : Int) ≥ be.maxSize then
        { be := { be with sequenceNum := wrapInt (be.sequenceNum + 1), currentBatch := none }
          started := [Goroutine.expireBatch (wrapInt (be.sequenceNum + 1)),
            Goroutine.runBatch
              { id := wrapInt (be.sequenceNum + 1), tasks := [task], futures := [future] }]
          val := some () }
      else
        { be := { be with
            sequenceNum := wrapInt (be.sequenceNum + 1)
            currentBatch := some
              { id := wrapInt (be.sequenceNum + 1), tasks := [task], futures := [future] } }
          started := [Goroutine.expireBatch (wrapInt (be.sequenceNum + 1))]
          val := some () } := by
  have hm' : ¬ (be.maxSize < 0 ∨ al.maxCap < be.maxSize) := by omega
  simp [addTask, newBatch, h, hm', batch.add]

/-- A submission when no batch is open and `make` rejects the capacity (negative, or too
large for the task type): the counter has been incremented, then `newBatch` panics. -/
theorem addTask_of_rejected {T F : Type} (al : Alloc) (be : BatchExecutor T F)
    (task : T) (future : F) (h : be.currentBatch = none)
    (hm : be.maxSize < 0 ∨ al.maxCap < be.maxSize) :
    addTask al be task future =
      { be := { be with sequenceNum := wrapInt (be.sequenceNum + 1) }
        started := []
        val := none } := by
  simp [addTask, newBatch, h, hm]

theorem maxSize_call {T F : Type} (al : Alloc) (be : BatchExecutor T F) (op : Op T F) :
    (op.call al be).be.maxSize = be.maxSize := by
  cases op with
  | submit task future =>
    cases hcur : be.currentBatch with
    | some b =>
      simp only [Op.call, addTask_of_open al be b task future hcur]
      split <;> rfl
    | none =>
      by_cases hm : be.maxSize < 0 ∨ al.maxCap < be.maxSize
      · simp only [Op.call, addTask_of_rejected al be task future hcur hm]
      · simp only [Op.call,
          addTask_of_closed al be task future hcur (by omega) (by omega)]
        split <;> rfl
  | timer batchId =>
    simp only [Op.call, expireBatch]
    split
    · split <;> rfl
    · rfl

theorem maxSize_exec {T F : Type} (al : Alloc) (ops : List (Op T F)) :
    ∀ w : World T F, (w.exec al ops).be.maxSize = w.be.maxSize := by
  induction ops with
  | nil => intro w; rfl
  | cons op ops ih =>
    intro w
    show ((w.step al op).exec al ops).be.maxSize = w.be.maxSize
    rw [ih (w.step al op)]
    exact maxSize_call al w.be op

/-- One call with a capacity that `make` accepts: the tasks of the batches it dispatches,
then those of the batch it leaves open, are the tasks that were open before, then the
submitted task if the call is a submission. -/
theorem tasks_call {T F : Type} (al : Alloc) (be : BatchExecutor T F) (op : Op T F)
    (hm : 0 ≤ be.maxSize) (hcap : be.maxSize ≤ al.maxCap) :
    (dispatchedOf (op.call al be).started).flatMap batch.tasks ++ openTasks (op.call al be).be
      = openTasks be ++ op.task?.toList := by
  cases op with
  | submit task future =>
    cases hcur : be.currentBatch with
    | some b =>
      simp only [Op.call, addTask_of_open al be b task future hcur]
      split <;>
        simp [dispatchedOf, Goroutine.batch?, openTasks, hcur, batch.add, Op.task?]
    | none =>
      simp only [Op.call, addTask_of_closed al be task future hcur hm hcap]
      split <;>
        simp [dispatchedOf, Goroutine.batch?, openTasks, hcur, Op.task?]
  | timer batchId =>
    cases hcur : be.currentBatch with
    | some b =>
      by_cases hid : b.id = batchId <;>
        simp [Op.call, expireBatch, hcur, hid, dispatchedOf, Goroutine.batch?, openTasks,
          Op.task?]
    | none =>
      simp [Op.call, expireBatch, hcur, dispatchedOf, openTasks, Op.task?]

theorem allTasks_step {T F : Type} (al : Alloc) (w : World T F) (op : Op T F)
    (hm : 0 ≤ w.be.maxSize) (hcap : w.be.maxSize ≤ al.maxCap) :
    (w.step al op).allTasks = w.allTasks ++ op.task?.toList := by
  have h := tasks_call al w.be op hm hcap
  simp only [World.allTasks, World.dispatched, World.step, dispatchedOf_append,
    List.flatMap_append, List.append_assoc]
  rw [h]

theorem allTasks_exec {T F : Type} (al : Alloc) (ops : List (Op T F)) :
    ∀ w : World T F, 0 ≤ w.be.maxSize → w.be.maxSize ≤ al.maxCap →
      (w.exec al ops).allTasks = w.allTasks ++ submittedTasks ops := by
  induction ops with
  | nil => intro w _ _; simp [World.exec, submittedTasks]
  | cons op ops ih =>
    intro w hm hcap
    show ((w.step al op).exec al ops).allTasks = _
    have hmax : (w.step al op).be.maxSize = w.be.maxSize := maxSize_call al w.be op
    rw [ih (w.step al op) (by rw [hmax]; exact hm) (by rw [hmax]; exact hcap),
      allTasks_step al w op hm hcap]
    cases op <;> simp [submittedTasks, Op.task?]

/-- C8, as amended: from a freshly constructed executor whose `MaxSize` is a capacity that
`make` accepts for the task type (not negative, at most `al.maxCap`), after any
interleaving of submissions and timer firings, the tasks of the dispatched batches in
dispatch order, followed by the tasks of the open batch, are exactly the submitted tasks
in submission order. -/
theorem tasks_preserved_in_submission_order {T F : Type} (al : Alloc) (opts : BatchOpts)
    (ops : List (Op T F)) (hm : 0 ≤ opts.MaxSize) (hcap : opts.MaxSize ≤ al.maxCap) :
    ((World.init opts).exec al ops).dispatched.flatMap batch.tasks
        ++ openTasks ((World.init opts).exec al ops).be
      = submittedTasks ops := by
  have h := allTasks_exec al ops (World.init opts) hm hcap
  simpa [World.allTasks, World.init, World.dispatched, dispatchedOf, openTasks,
    NewExecutor] using h

/-- Witness of C8: `MaxSize` 2, five submissions with two timer firings in between, one
stale and one closing a batch of one task. -/
theorem tasks_preserved_in_submission_order_witness :
    (0 : Int) ≤ 2 ∧ (2 : Int) ≤ intAlloc.maxCap ∧
    ((World.init { MaxSize := 2, MaxLinger := 0 }).exec intAlloc
        [Op.submit 10 0, Op.submit 11 1, Op.timer 1, Op.submit 12 2, Op.timer 2,
          Op.submit 13 3, Op.submit 14 4, Op.submit 15 5]).dispatched.flatMap batch.tasks
        ++ openTasks ((World.init { MaxSize := 2, MaxLinger := 0 }).exec intAlloc
        [Op.submit 10 0, Op.submit 11 1, Op.timer 1, Op.submit 12 2, Op.timer 2,
          Op.submit 13 3, Op.submit 14 4, Op.submit 15 5] : World Nat Nat).be
      = [10, 11, 12, 13, 14, 15] :=
  ⟨by decide, by decide,
    tasks_preserved_in_submission_order intAlloc { MaxSize := 2, MaxLinger := 0 } _
      (by decide) (by decide)⟩

/-- C8 as stated fails: with `MaxSize` 2^62 and tasks of 8 bytes, `make` rejects the
capacity, so the one submission panics in `newBatch`: the submitted task 5 is in no
batch, neither dispatched nor open. -/
theorem tasks_lost_when_capacity_rejected :
    ((World.init { MaxSize := 2 ^ 62, MaxLinger := 0 }).exec intAlloc
        [Op.submit 5 0] : World Nat Nat).dispatched.flatMap batch.tasks
        ++ openTasks ((World.init { MaxSize := 2 ^ 62, MaxLinger := 0 }).exec intAlloc
        [Op.submit 5 0] : World Nat Nat).be
      = [] ∧
    submittedTasks [(Op.submit 5 0 : Op Nat Nat)] = [5] ∧
    ((World.init { MaxSize := 2 ^ 62, MaxLinger := 0 }).exec intAlloc
        [Op.submit 5 0] : World Nat Nat).panicked = true := by
  refine ⟨by decide, by decide, by decide⟩

/-- C9: when a batch `b` is open and the timer's batch id is the id of `b`, the locked
section of `expireBatch` starts exactly one goroutine, `runBatch` on `b` itself (its id,
tasks and futures as they are, whatever their number), and leaves the executor as it was
except that no batch is open: `sequenceNum` is unchanged. -/
theorem expireBatch_dispatches_open_batch {T F : Type} (be : BatchExecutor T F)
    (b : batch T F) (batchId : Int) (hopen : be.currentBatch = some b)
    (hid : b.id = batchId) :
    expireBatch be batchId =
      { be := { sequenceNum := be.sequenceNum, currentBatch := none,
                maxSize := be.maxSize, maxLinger := be.maxLinger }
        started := [Goroutine.runBatch b]
        val := some () } := by
  simp [expireBatch, hopen, hid]

/-- Witness of C9: `MaxSize` 100, three submissions, then the timer of batch 1 fires: one
batch of the three tasks is dispatched. -/
theorem expireBatch_dispatches_open_batch_witness :
    ((World.init { MaxSize := 100, MaxLinger := 50 }).exec intAlloc
        [Op.submit 7 0, Op.submit 8 1, Op.submit 9 2] : World Nat Nat).dispatched = [] ∧
    expireBatch ((World.init { MaxSize := 100, MaxLinger := 50 }).exec intAlloc
        [Op.submit 7 0, Op.submit 8 1, Op.submit 9 2] : World Nat Nat).be 1 =
      { be := { sequenceNum := 1, currentBatch := none, maxSize := 100, maxLinger := 50 }
        started := [Goroutine.runBatch { id := 1, tasks := [7, 8, 9], futures := [0, 1, 2] }]
        val := some () } :=
  ⟨by decide,
    expireBatch_dispatches_open_batch _ { id := 1, tasks := [7, 8, 9], futures := [0, 1, 2] }
      1 (by decide) rfl⟩

/-- C10: when no batch is open, or the open batch has another id than the timer's, the
locked section of `expireBatch` changes nothing: the executor (its `currentBatch` with
tasks and futures, its `sequenceNum`) is the same and no goroutine is started. -/
theorem expireBatch_stale_is_noop {T F : Type} (be : BatchExecutor T F) (batchId : Int)
    (h : be.currentBatch = none ∨ ∃ b, be.currentBatch = some b ∧ b.id ≠ batchId) :
    expireBatch be batchId = { be := be, started := [], val := some () } := by
  rcases h with h | ⟨b, h, hid⟩
  · simp [expireBatch, h]
  · simp [expireBatch, h, hid]

/-- Witness of C10: `MaxSize` 2; batch 1 is closed by its second task and a third task
opens batch 2; then the timer of batch 1 fires. -/
theorem expireBatch_stale_is_noop_witness :
    expireBatch ((World.init { MaxSize := 2, MaxLinger := 0 }).exec intAlloc
        [Op.submit 7 0, Op.submit 8 1, Op.submit 9 2] : World Nat Nat).be 1 =
      { be := { sequenceNum := 2
                currentBatch := some { id := 2, tasks := [9], futures := [2] }
                maxSize := 2, maxLinger := 0 }
        started := []
        val := some () } :=
  expireBatch_stale_is_noop _ 1
    (Or.inr ⟨{ id := 2, tasks := [9], futures := [2] }, by decide, by decide⟩)

/-! ### No duplicate dispatch -/

theorem exec_append {T F : Type} (al : Alloc) (w : World T F)
    (ops1 ops2 : List (Op T F)) :
    w.exec al (ops1 ++ ops2) = (w.exec al ops1).exec al ops2 := by
  simp [World.exec, List.foldl_append]

theorem dispatched_step {T F : Type} (al : Alloc) (w : World T F) (op : Op T F) :
    (w.step al op).dispatched
      = w.dispatched ++ dispatchedOf (op.call al w.be).started := by
  simp [World.dispatched, World.step, dispatchedOf_append]

/-- A run only adds to the dispatched batches. -/
theorem dispatched_exec_mono {T F : Type} (al : Alloc) (ops : List (Op T F)) :
    ∀ (w : World T F) (d : batch T F), d ∈ w.dispatched →
      d ∈ (w.exec al ops).dispatched := by
  induction ops with
  | nil => intro w d hd; exact hd
  | cons op ops ih =>
    intro w d hd
    show d ∈ ((w.step al op).exec al ops).dispatched
    apply ih
    rw [dispatched_step]
    exact List.mem_append_left _ hd

/-- Appending an open batch, whose id is above all dispatched ids, keeps them distinct. -/
theorem nodup_ids_snoc {T F : Type} (ds : List (batch T F)) (b : batch T F)
    (hnd : (ds.map batch.id).Nodup) (hlt : ∀ d ∈ ds, d.id < b.id) :
    ((ds ++ [b]).map batch.id).Nodup := by
  rw [List.map_append, List.nodup_append]
  refine ⟨hnd, by simp, ?_⟩
  intro x hx hxb
  simp only [List.map_cons, List.map_nil, List.mem_singleton] at hxb
  obtain ⟨d, hd, rfl⟩ := List.mem_map.mp hx
  have := hlt d hd
  omega

theorem idInv_call {T F : Type} (al : Alloc) (be : BatchExecutor T F) (ds : List (batch T F))
    (n : Nat) (op : Op T F) (hinv : IdInv be ds n) (hn : ((n : Int) + 1) < 2 ^ 63) :
    IdInv (op.call al be).be (ds ++ dispatchedOf (op.call al be).started) (n + 1) := by
  obtain ⟨h0, hle, hnd, hds, hcur⟩ := hinv
  have hw : wrapInt (be.sequenceNum + 1) = be.sequenceNum + 1 :=
    wrapInt_eq_self _ (by omega) (by omega)
  have hup : ∀ d ∈ ds, d.id < be.sequenceNum + 1 := fun d hd => by
    have := hds d hd; omega
  have hup' : ∀ d ∈ ds, d.id ≤ be.sequenceNum + 1 := fun d hd => by
    have := hds d hd; omega
  cases op with
  | submit task future =>
    cases hc : be.currentBatch with
    | some b =>
      obtain ⟨hbid, hblt⟩ := hcur b hc
      simp only [Op.call, addTask_of_open al be b task future hc]
      split
      · refine ⟨h0, by push_cast; omega, ?_, ?_, ?_⟩
        · simp only [dispatchedOf, List.filterMap_cons, Goroutine.batch?, List.filterMap_nil]
          exact nodup_ids_snoc ds _ hnd (fun d hd => by
            have := hblt d hd; simp only [batch.add]; omega)
        · intro d hd
          simp only [dispatchedOf, List.filterMap_cons, Goroutine.batch?, List.filterMap_nil,
            List.mem_append, List.mem_singleton] at hd
          rcases hd with hd | rfl
          · exact hds d hd
          · simp only [batch.add]; omega
        · intro c hcc; simp at hcc
      · refine ⟨h0, by push_cast; omega, ?_, ?_, ?_⟩
        · simpa [dispatchedOf] using hnd
        · intro d hd
          simp only [dispatchedOf, List.filterMap_nil, List.append_nil] at hd
          exact hds d hd
        · intro c hcc
          simp only [Option.some.injEq] at hcc
          subst hcc
          refine ⟨hbid, ?_⟩
          intro d hd
          simp only [dispatchedOf, List.filterMap_nil, List.append_nil] at hd
          exact hblt d hd
    | none =>
      by_cases hm : be.maxSize < 0 ∨ al.maxCap < be.maxSize
      · simp only [Op.call, addTask_of_rejected al be task future hc hm, hw]
        refine ⟨by show 0 ≤ be.sequenceNum + 1; omega,
          by show be.sequenceNum + 1 ≤ ((n + 1 : Nat) : Int); push_cast; omega, ?_, ?_, ?_⟩
        · simpa [dispatchedOf] using hnd
        · intro d hd
          simp only [dispatchedOf, List.filterMap_nil, List.append_nil] at hd
          exact hup' d hd
        · intro c hcc
          rw [hc] at hcc
          cases hcc
      · simp only [Op.call, addTask_of_closed al be task future hc (by omega) (by omega), hw]
        split
        · refine ⟨by show 0 ≤ be.sequenceNum + 1; omega,
            by show be.sequenceNum + 1 ≤ ((n + 1 : Nat) : Int); push_cast; omega, ?_, ?_, ?_⟩
          · simp only [dispatchedOf, List.filterMap_cons, Goroutine.batch?,
              List.filterMap_nil]
            exact nodup_ids_snoc ds _ hnd hup
          · intro d hd
            simp only [dispatchedOf, List.filterMap_cons, Goroutine.batch?,
              List.filterMap_nil, List.mem_append, List.mem_singleton] at hd
            rcases hd with hd | rfl
            · exact hup' d hd
            · exact le_refl _
          · intro c hcc; simp at hcc
        · refine ⟨by show 0 ≤ be.sequenceNum + 1; omega,
            by show be.sequenceNum + 1 ≤ ((n + 1 : Nat) : Int); push_cast; omega, ?_, ?_, ?_⟩
          · simpa [dispatchedOf, Goroutine.batch?] using hnd
          · intro d hd
            simp only [dispatchedOf, List.filterMap_cons, Goroutine.batch?,
              List.filterMap_nil, List.append_nil] at hd
            exact hup' d hd
          · intro c hcc
            simp only [Option.some.injEq] at hcc
            subst hcc
            refine ⟨rfl, ?_⟩
            intro d hd
            simp only [dispatchedOf, List.filterMap_cons, Goroutine.batch?,
              List.filterMap_nil, List.append_nil] at hd
            exact hup d hd
  | timer batchId =>
    cases hc : be.currentBatch with
    | some b =>
      obtain ⟨hbid, hblt⟩ := hcur b hc
      by_cases hid : b.id = batchId
      · subst hid
        simp only [Op.call, expireBatch, hc, if_true]
        refine ⟨h0, by push_cast; omega, ?_, ?_, ?_⟩
        · simp only [dispatchedOf, List.filterMap_cons, Goroutine.batch?, List.filterMap_nil]
          exact nodup_ids_snoc ds _ hnd (fun d hd => by
            have := hblt d hd; omega)
        · intro d hd
          simp only [dispatchedOf, List.filterMap_cons, Goroutine.batch?, List.filterMap_nil,
            List.mem_append, List.mem_singleton] at hd
          rcases hd with hd | rfl
          · exact hds d hd
          · exact le_of_eq hbid
        · intro c hcc; simp at hcc
      · simp only [Op.call, expireBatch, hc, hid, if_false]
        refine ⟨h0, by push_cast; omega, ?_, ?_, ?_⟩
        · simpa [dispatchedOf] using hnd
        · intro d hd
          simp only [dispatchedOf, List.filterMap_nil, List.append_nil] at hd
          exact hds d hd
        · intro c hcc
          rw [hc] at hcc
          simp only [Option.some.injEq] at hcc
          subst hcc
          refine ⟨hbid, ?_⟩
          intro d hd
          simp only [dispatchedOf, List.filterMap_nil, List.append_nil] at hd
          exact hblt d hd
    | none =>
      simp only [Op.call, expireBatch, hc]
      refine ⟨h0, by push_cast; omega, ?_, ?_, ?_⟩
      · simpa [dispatchedOf] using hnd
      · intro d hd
        simp only [dispatchedOf, List.filterMap_nil, List.append_nil] at hd
        exact hds d hd
      · intro c hcc
        rw [hc] at hcc
        cases hcc

theorem idInv_exec {T F : Type} (al : Alloc) (ops : List (Op T F)) :
    ∀ (w : World T F) (n : Nat), IdInv w.be w.dispatched n → n + ops.length < 2 ^ 63 →
      IdInv (w.exec al ops).be (w.exec al ops).dispatched (n + ops.length) := by
  induction ops with
  | nil => intro w n h _; exact h
  | cons op ops ih =>
    intro w n h hn
    simp only [List.length_cons] at hn
    have hn1 : ((n : Int) + 1) < 2 ^ 63 := by omega
    have hstep : IdInv (w.step al op).be (w.step al op).dispatched (n + 1) := by
      rw [dispatched_step]
      exact idInv_call al w.be w.dispatched n op h hn1
    have := ih (w.step al op) (n + 1) hstep (by omega)
    have hadd : n + (op :: ops).length = n + 1 + ops.length := by
      simp only [List.length_cons]; omega
    rw [hadd]
    exact this

theorem idInv_init {T F : Type} (opts : BatchOpts) :
    IdInv (World.init opts : World T F).be (World.init opts : World T F).dispatched 0 := by
  refine ⟨le_refl _, le_refl _, ?_, ?_, ?_⟩
  · simp [World.init, World.dispatched, dispatchedOf]
  · intro d hd
    simp [World.init, World.dispatched, dispatchedOf] at hd
  · intro c hc
    simp [World.init, NewExecutor] at hc

/-- C6: from a freshly constructed executor, after any run `ops` of submissions and timer
firings (with arbitrary batch ids), the ids of the batches handed to `runBatch` are
pairwise distinct; and however the run goes on (`later`), a batch open then is none of
the batches dispatched before and has the id of none of them. The run is shorter than
2^63 steps, so that the 64-bit counter `sequenceNum` has not wrapped around. -/
theorem no_duplicate_dispatch {T F : Type} (al : Alloc) (opts : BatchOpts)
    (ops later : List (Op T F)) (hlen : ops.length + later.length < 2 ^ 63) :
    (((World.init opts).exec al ops).dispatched.map batch.id).Nodup ∧
      ∀ d ∈ ((World.init opts).exec al ops).dispatched, ∀ c : batch T F,
        ((World.init opts).exec al (ops ++ later)).be.currentBatch = some c →
          c ≠ d ∧ c.id ≠ d.id := by
  have h1 := idInv_exec al ops (World.init opts) 0 (idInv_init opts) (by omega)
  have h2 := idInv_exec al (ops ++ later) (World.init opts) 0 (idInv_init opts)
    (by simp only [List.length_append]; omega)
  refine ⟨h1.2.2.1, ?_⟩
  intro d hd c hc
  have hd2 : d ∈ ((World.init opts).exec al (ops ++ later)).dispatched := by
    rw [exec_append]
    exact dispatched_exec_mono al later _ d hd
  obtain ⟨hcid, hlt⟩ := h2.2.2.2.2 c hc
  have hne : c.id ≠ d.id := by
    have := hlt d hd2
    omega
  exact ⟨fun h => hne (by rw [h]), hne⟩

/-- Witness of C6: `MaxSize` 2; batch 1 is closed by its second task, its timer fires
afterwards, a third task opens batch 2, whose timer fires; later a fourth task opens
batch 3. -/
theorem no_duplicate_dispatch_witness :
    [Op.submit 7 0, Op.submit 8 1, Op.timer 1, Op.submit 9 2, Op.timer 2].length
        + [(Op.submit 10 3 : Op Nat Nat)].length < 2 ^ 63 ∧
    (((World.init { MaxSize := 2, MaxLinger := 0 }).exec intAlloc
        [Op.submit 7 0, Op.submit 8 1, Op.timer 1, Op.submit 9 2, Op.timer 2]
          : World Nat Nat).dispatched.map batch.id).Nodup ∧
      ∀ d ∈ ((World.init { MaxSize := 2, MaxLinger := 0 }).exec intAlloc
        [Op.submit 7 0, Op.submit 8 1, Op.timer 1, Op.submit 9 2, Op.timer 2]
          : World Nat Nat).dispatched, ∀ c : batch Nat Nat,
        ((World.init { MaxSize := 2, MaxLinger := 0 }).exec intAlloc
          ([Op.submit 7 0, Op.submit 8 1, Op.timer 1, Op.submit 9 2, Op.timer 2]
            ++ [Op.submit 10 3])).be.currentBatch = some c →
          c ≠ d ∧ c.id ≠ d.id :=
  ⟨by decide, no_duplicate_dispatch intAlloc { MaxSize := 2, MaxLinger := 0 } _ _ (by decide)⟩

/-! ### Batch sizing -/

/-- A submission that brings the open batch (or a new one) to `maxSize` tasks: the batch,
with the task and the future appended, is dispatched and no batch is left open. -/
theorem addTask_full {T F : Type} (al : Alloc) (be : BatchExecutor T F) (task : T)
    (future : F) (hm : 0 ≤ be.maxSize) (hcap : be.maxSize ≤ al.maxCap)
    (hfull : be.maxSize ≤ ((openTasks be).length : Int) + 1) :
    ∃ id : Int,
      (addTask al be task future).be.currentBatch = none ∧
      dispatchedOf (addTask al be task future).started =
        [{ id := id, tasks := openTasks be ++ [task], futures := openFutures be ++ [future] }] := by
  cases hc : be.currentBatch with
  | some b =>
    have hcond : ((b.add task future).tasks.length : Int) ≥ be.maxSize := by
      simp only [openTasks, hc] at hfull
      simp only [batch.add, List.length_append, List.length_singleton]
      push_cast; omega
    rw [addTask_of_open al be b task future hc, if_pos hcond]
    exact ⟨b.id, rfl, by simp [dispatchedOf, Goroutine.batch?, batch.add, openTasks,
      openFutures, hc]⟩
  | none =>
    have hcond : (1 : Int) ≥ be.maxSize := by
      simp only [openTasks, hc, List.length_nil] at hfull
      omega
    rw [addTask_of_closed al be task future hc hm hcap, if_pos hcond]
    exact ⟨wrapInt (be.sequenceNum + 1), rfl, by simp [dispatchedOf, Goroutine.batch?,
      openTasks, openFutures, hc]⟩

/-- A submission that leaves the open batch (or a new one) below `maxSize` tasks: the
batch, with the task and the future appended, stays open and nothing is dispatched. -/
theorem addTask_below {T F : Type} (al : Alloc) (be : BatchExecutor T F) (task : T)
    (future : F) (hm : 0 ≤ be.maxSize) (hcap : be.maxSize ≤ al.maxCap)
    (hbelow : ((openTasks be).length : Int) + 1 < be.maxSize) :
    ∃ id : Int,
      (addTask al be task future).be.currentBatch =
        some { id := id, tasks := openTasks be ++ [task],
               futures := openFutures be ++ [future] } ∧
      dispatchedOf (addTask al be task future).started = [] := by
  cases hc : be.currentBatch with
  | some b =>
    have hcond : ¬ ((b.add task future).tasks.length : Int) ≥ be.maxSize := by
      simp only [openTasks, hc] at hbelow
      simp only [batch.add, List.length_append, List.length_singleton]
      push_cast; omega
    rw [addTask_of_open al be b task future hc, if_neg hcond]
    exact ⟨b.id, by simp [batch.add, openTasks, openFutures, hc], by simp [dispatchedOf]⟩
  | none =>
    have hcond : ¬ (1 : Int) ≥ be.maxSize := by
      simp only [openTasks, hc, List.length_nil] at hbelow
      omega
    rw [addTask_of_closed al be task future hc hm hcap, if_neg hcond]
    exact ⟨wrapInt (be.sequenceNum + 1), by simp [openTasks, openFutures, hc],
      by simp [dispatchedOf, Goroutine.batch?]⟩

theorem chunk_append_of_le {α : Type} (m k : Nat) (l : List α) (a : α)
    (h : k * m + m ≤ l.length) : chunk m k (l ++ [a]) = chunk m k l := by
  unfold chunk
  rw [List.drop_append_of_le_length (by omega), List.take_append_of_le_length]
  simp only [List.length_drop]
  omega

theorem chunk_last {α : Type} (m k : Nat) (l : List α) (a : α) (hm : 1 ≤ m)
    (h : l.length + 1 = k * m + m) : chunk m k (l ++ [a]) = l.drop (k * m) ++ [a] := by
  unfold chunk
  rw [List.drop_append_of_le_length (by omega)]
  apply List.take_of_length_le
  simp only [List.length_append, List.length_drop, List.length_singleton]
  omega

theorem map_chunk_append {α : Type} (m q : Nat) (l : List α) (a : α)
    (h : q * m ≤ l.length) :
    (List.range q).map (fun k => chunk m k (l ++ [a]))
      = (List.range q).map (fun k => chunk m k l) := by
  apply List.map_congr_left
  intro k hk
  have hk' : k < q := List.mem_range.mp hk
  apply chunk_append_of_le
  have : (k + 1) * m ≤ q * m := Nat.mul_le_mul_right m hk'
  rw [Nat.add_mul, Nat.one_mul] at this
  omega

theorem openTasks_of_some {T F : Type} (be : BatchExecutor T F) (b : batch T F)
    (h : be.currentBatch = some b) : openTasks be = b.tasks := by
  simp [openTasks, h]

theorem openFutures_of_some {T F : Type} (be : BatchExecutor T F) (b : batch T F)
    (h : be.currentBatch = some b) : openFutures be = b.futures := by
  simp [openFutures, h]

theorem exec_submits_snoc {T F : Type} (al : Alloc) (w : World T F) (subs : List (T × F))
    (p : T × F) :
    w.exec al (submits (subs ++ [p])) = (w.exec al (submits subs)).step al (Op.submit p.1 p.2) := by
  simp [submits, World.exec, List.foldl_append]

theorem sized_step_full {T F : Type} (al : Alloc) (m q : Nat) (subs : List (T × F))
    (p : T × F) (w : World T F) (hm : 1 ≤ m) (hcap : (m : Int) ≤ al.maxCap)
    (hlen : subs.length + 1 = q * m + m)
    (h : Sized m q (m - 1) subs w) :
    Sized m (q + 1) 0 (subs ++ [p]) (w.step al (Op.submit p.1 p.2)) := by
  obtain ⟨hmax, hts, hfs, hot, hof, -, -⟩ := h
  have hotl : (openTasks w.be).length = m - 1 := by
    rw [hot, List.length_drop, List.length_map]; omega
  obtain ⟨id, hcur, hdisp⟩ := addTask_full al w.be p.1 p.2 (by rw [hmax]; omega)
    (by rw [hmax]; exact hcap) (by rw [hmax, hotl]; omega)
  have hq : (q + 1) * m = q * m + m := by rw [Nat.add_mul, Nat.one_mul]
  have hbe : (w.step al (Op.submit p.1 p.2)).be = (addTask al w.be p.1 p.2).be := rfl
  have hd : (w.step al (Op.submit p.1 p.2)).dispatched
      = w.dispatched ++ dispatchedOf (addTask al w.be p.1 p.2).started := dispatched_step al w _
  have hmf : (subs ++ [p]).map Prod.fst = subs.map Prod.fst ++ [p.1] := by simp
  have hms : (subs ++ [p]).map Prod.snd = subs.map Prod.snd ++ [p.2] := by simp
  have hlf : (subs.map Prod.fst).length = subs.length := List.length_map _ _
  have hls : (subs.map Prod.snd).length = subs.length := List.length_map _ _
  refine ⟨?_, ?_, ?_, ?_, ?_, ?_, ?_⟩
  · rw [hbe]
    exact (maxSize_call al w.be (Op.submit p.1 p.2)).trans hmax
  · rw [hmf, hd, hdisp, List.map_append, hts, List.range_succ, List.map_append,
      map_chunk_append m q _ p.1 (by omega)]
    simp only [List.map_cons, List.map_nil]
    rw [chunk_last m q _ p.1 hm (by omega), hot]
  · rw [hms, hd, hdisp, List.map_append, hfs, List.range_succ, List.map_append,
      map_chunk_append m q _ p.2 (by omega)]
    simp only [List.map_cons, List.map_nil]
    rw [chunk_last m q _ p.2 hm (by omega), hof]
  · have ho : openTasks (addTask al w.be p.1 p.2).be = [] := by
      unfold openTasks; rw [hcur]
    rw [hbe, ho, hmf]
    symm
    apply List.drop_eq_nil_of_le
    simp only [List.length_append, List.length_singleton]
    omega
  · have ho : openFutures (addTask al w.be p.1 p.2).be = [] := by
      unfold openFutures; rw [hcur]
    rw [hbe, ho, hms]
    symm
    apply List.drop_eq_nil_of_le
    simp only [List.length_append, List.length_singleton]
    omega
  · intro _
    rw [hbe]; exact hcur
  · intro h0
    exact absurd rfl h0

theorem sized_step_below {T F : Type} (al : Alloc) (m q r : Nat) (subs : List (T × F))
    (p : T × F) (w : World T F) (hr : r + 1 < m) (hcap : (m : Int) ≤ al.maxCap)
    (hlen : subs.length = q * m + r)
    (h : Sized m q r subs w) :
    Sized m q (r + 1) (subs ++ [p]) (w.step al (Op.submit p.1 p.2)) := by
  obtain ⟨hmax, hts, hfs, hot, hof, -, -⟩ := h
  have hotl : (openTasks w.be).length = r := by
    rw [hot, List.length_drop, List.length_map]; omega
  obtain ⟨id, hcur, hdisp⟩ := addTask_below al w.be p.1 p.2 (by rw [hmax]; omega)
    (by rw [hmax]; exact hcap) (by rw [hmax, hotl]; omega)
  have hbe : (w.step al (Op.submit p.1 p.2)).be = (addTask al w.be p.1 p.2).be := rfl
  have hd : (w.step al (Op.submit p.1 p.2)).dispatched
      = w.dispatched ++ dispatchedOf (addTask al w.be p.1 p.2).started := dispatched_step al w _
  have hmf : (subs ++ [p]).map Prod.fst = subs.map Prod.fst ++ [p.1] := by simp
  have hms : (subs ++ [p]).map Prod.snd = subs.map Prod.snd ++ [p.2] := by simp
  have hlf : (subs.map Prod.fst).length = subs.length := List.length_map _ _
  have hls : (subs.map Prod.snd).length = subs.length := List.length_map _ _
  refine ⟨?_, ?_, ?_, ?_, ?_, ?_, ?_⟩
  · rw [hbe]
    exact (maxSize_call al w.be (Op.submit p.1 p.2)).trans hmax
  · rw [hmf, hd, hdisp, List.append_nil, hts, map_chunk_append m q _ p.1 (by omega)]
  · rw [hms, hd, hdisp, List.append_nil, hfs, map_chunk_append m q _ p.2 (by omega)]
  · have ho : openTasks (addTask al w.be p.1 p.2).be = openTasks w.be ++ [p.1] :=
      openTasks_of_some _ _ hcur
    rw [hbe, ho, hmf, List.drop_append_of_le_length (by omega), hot]
  · have ho : openFutures (addTask al w.be p.1 p.2).be = openFutures w.be ++ [p.2] :=
      openFutures_of_some _ _ hcur
    rw [hbe, ho, hms, List.drop_append_of_le_length (by omega), hof]
  · intro h0
    omega
  · intro _
    rw [hbe]
    exact ⟨_, hcur⟩

theorem sized_init {T F : Type} (m : Nat) (linger : Int) :
    Sized m 0 0 ([] : List (T × F)) (World.init { MaxSize := m, MaxLinger := linger }) := by
  refine ⟨rfl, ?_, ?_, ?_, ?_, ?_, ?_⟩
  · simp [World.init, World.dispatched, dispatchedOf]
  · simp [World.init, World.dispatched, dispatchedOf]
  · simp [World.init, NewExecutor, openTasks]
  · simp [World.init, NewExecutor, openFutures]
  · intro _; rfl
  · intro h; exact absurd rfl h

/-- After the submissions `subs`, with `subs.length = q * m + r` and `r < m`, a fresh
executor with `MaxSize = m ≥ 1`, a capacity that `make` accepts, has dispatched the
first `q` chunks of `m` and holds the remaining `r` in the open batch. -/
theorem sized_exec {T F : Type} (al : Alloc) (m : Nat) (linger : Int) (hm : 1 ≤ m)
    (hcap : (m : Int) ≤ al.maxCap) (subs : List (T × F)) :
    ∀ q r : Nat, r < m → subs.length = q * m + r →
      Sized m q r subs
        ((World.init { MaxSize := m, MaxLinger := linger }).exec al (submits subs)) := by
  induction subs using List.reverseRecOn with
  | nil =>
    intro q r hr hlen
    simp only [List.length_nil] at hlen
    have hr0 : r = 0 := by omega
    have hq0 : q = 0 := by
      rcases Nat.eq_zero_or_pos q with h | h
      · exact h
      · have : 1 * m ≤ q * m := Nat.mul_le_mul_right m h
        omega
    subst hr0; subst hq0
    exact sized_init m linger
  | append_singleton l p ih =>
    intro q r hr hlen
    simp only [List.length_append, List.length_singleton] at hlen
    rw [exec_submits_snoc]
    rcases Nat.eq_zero_or_pos r with h0 | hpos
    · subst h0
      cases q with
      | zero => simp at hlen
      | succ q =>
        have hq : (q + 1) * m = q * m + m := by rw [Nat.add_mul, Nat.one_mul]
        exact sized_step_full al m q l p _ hm hcap (by omega)
          (ih q (m - 1) (by omega) (by omega))
    · obtain ⟨r, rfl⟩ : ∃ r0, r = r0 + 1 := ⟨r - 1, by omega⟩
      exact sized_step_below al m q r l p _ hr hcap (by omega)
        (ih q r (by omega) (by omega))

/-- C7, as amended: for `MaxSize = m ≥ 1` that `make` accepts as a capacity for the task
type (`m ≤ al.maxCap`), after the `N` submissions `subs` on a fresh executor with no
timer firing in between, the dispatched batches are, in order, the `N / m`
consecutive chunks of `m` submissions (tasks and futures), each of exactly `m` tasks; no
batch is open when `N % m = 0`; otherwise the open batch holds the remaining `N % m`
submissions, and the firing of its timer then dispatches it as one more batch and
leaves no batch open. -/
theorem batch_sizing {T F : Type} (al : Alloc) (m : Nat) (linger : Int)
    (subs : List (T × F)) (hm : 1 ≤ m) (hcap : (m : Int) ≤ al.maxCap) :
    ((World.init { MaxSize := m, MaxLinger := linger }).exec al (submits subs)).dispatched.map
        batch.tasks
      = (List.range (subs.length / m)).map (fun k => chunk m k (subs.map Prod.fst)) ∧
    ((World.init { MaxSize := m, MaxLinger := linger }).exec al (submits subs)).dispatched.map
        batch.futures
      = (List.range (subs.length / m)).map (fun k => chunk m k (subs.map Prod.snd)) ∧
    (∀ d ∈ ((World.init { MaxSize := m, MaxLinger := linger }).exec al
        (submits subs)).dispatched, d.tasks.length = m) ∧
    (subs.length % m = 0 →
      ((World.init { MaxSize := m, MaxLinger := linger }).exec al
        (submits subs)).be.currentBatch = none) ∧
    (subs.length % m ≠ 0 →
      ∃ c : batch T F,
        ((World.init { MaxSize := m, MaxLinger := linger }).exec al
          (submits subs)).be.currentBatch = some c ∧
        c.tasks = (subs.map Prod.fst).drop (subs.length / m * m) ∧
        c.futures = (subs.map Prod.snd).drop (subs.length / m * m) ∧
        c.tasks.length = subs.length % m ∧
        (((World.init { MaxSize := m, MaxLinger := linger }).exec al (submits subs)).step al
            (Op.timer c.id)).dispatched
          = ((World.init { MaxSize := m, MaxLinger := linger }).exec al
              (submits subs)).dispatched ++ [c] ∧
        (((World.init { MaxSize := m, MaxLinger := linger }).exec al (submits subs)).step al
            (Op.timer c.id)).be.currentBatch = none) := by
  have hmpos : 0 < m := hm
  have hdm : subs.length = subs.length / m * m + subs.length % m := by
    rw [Nat.mul_comm]; exact (Nat.div_add_mod _ _).symm
  have hmul : subs.length / m * m ≤ subs.length := Nat.div_mul_le_self _ _
  obtain ⟨-, hts, hfs, hot, hof, hnone, hsome⟩ :=
    sized_exec al m linger hm hcap subs (subs.length / m) (subs.length % m)
      (Nat.mod_lt _ hmpos) hdm
  refine ⟨hts, hfs, ?_, hnone, ?_⟩
  · intro d hd
    have hmem : d.tasks ∈ (List.range (subs.length / m)).map
        (fun k => chunk m k (subs.map Prod.fst)) := by
      rw [← hts]; exact List.mem_map_of_mem _ hd
    obtain ⟨k, hk, hkd⟩ := List.mem_map.mp hmem
    have hk' : k < subs.length / m := List.mem_range.mp hk
    have hkm : (k + 1) * m ≤ subs.length / m * m := Nat.mul_le_mul_right m hk'
    rw [Nat.add_mul, Nat.one_mul] at hkm
    rw [← hkd]
    simp only [chunk, List.length_take, List.length_drop, List.length_map]
    omega
  · intro hr
    obtain ⟨c, hc⟩ := hsome hr
    have hct : c.tasks = (subs.map Prod.fst).drop (subs.length / m * m) := by
      rw [← openTasks_of_some _ c hc]; exact hot
    have hcf : c.futures = (subs.map Prod.snd).drop (subs.length / m * m) := by
      rw [← openFutures_of_some _ c hc]; exact hof
    refine ⟨c, hc, hct, hcf, ?_, ?_, ?_⟩
    · rw [hct, List.length_drop, List.length_map]; omega
    · rw [dispatched_step]
      simp [Op.call, expireBatch, hc, dispatchedOf, Goroutine.batch?]
    · simp [World.step, Op.call, expireBatch, hc]

set_option maxRecDepth 20000

/-- Witness of C7: `MaxSize` 10 and 25 submissions (task `i` with future `100 + i`): two
batches of 10 are dispatched, the last 5 submissions are open, and the timer of that
batch dispatches them as the third batch. -/
theorem batch_sizing_witness :
    1 ≤ 10 ∧ ((10 : Nat) : Int) ≤ intAlloc.maxCap ∧
    (((World.init { MaxSize := 10, MaxLinger := 1000000000 }).exec intAlloc
        (submits ((List.range 25).map (fun i => (i, 100 + i))))).dispatched.map batch.tasks
      = [[0, 1, 2, 3, 4, 5, 6, 7, 8, 9], [10, 11, 12, 13, 14, 15, 16, 17, 18, 19]] ∧
    ((World.init { MaxSize := 10, MaxLinger := 1000000000 }).exec intAlloc
        (submits ((List.range 25).map (fun i => (i, 100 + i))))).dispatched.map batch.futures
      = [[100, 101, 102, 103, 104, 105, 106, 107, 108, 109],
         [110, 111, 112, 113, 114, 115, 116, 117, 118, 119]] ∧
    (∀ d ∈ ((World.init { MaxSize := 10, MaxLinger := 1000000000 }).exec intAlloc
        (submits ((List.range 25).map (fun i => (i, 100 + i))))).dispatched, d.tasks.length = 10) ∧
    (25 % 10 = 0 → ((World.init { MaxSize := 10, MaxLinger := 1000000000 }).exec intAlloc
        (submits ((List.range 25).map (fun i => (i, 100 + i))))).be.currentBatch = none) ∧
    (25 % 10 ≠ 0 →
      ∃ c : batch Nat Nat,
        ((World.init { MaxSize := 10, MaxLinger := 1000000000 }).exec intAlloc
        (submits ((List.range 25).map (fun i => (i, 100 + i))))).be.currentBatch = some c ∧
        c.tasks = [20, 21, 22, 23, 24] ∧
        c.futures = [120, 121, 122, 123, 124] ∧
        c.tasks.length = 5 ∧
        (((World.init { MaxSize := 10, MaxLinger := 1000000000 }).exec intAlloc
        (submits ((List.range 25).map (fun i => (i, 100 + i))))).step intAlloc (Op.timer c.id)).dispatched = ((World.init { MaxSize := 10, MaxLinger := 1000000000 }).exec intAlloc
        (submits ((List.range 25).map (fun i => (i, 100 + i))))).dispatched ++ [c] ∧
        (((World.init { MaxSize := 10, MaxLinger := 1000000000 }).exec intAlloc
        (submits ((List.range 25).map (fun i => (i, 100 + i))))).step intAlloc (Op.timer c.id)).be.currentBatch = none)) :=
  ⟨by decide, by decide,
    batch_sizing intAlloc 10 1000000000 ((List.range 25).map (fun i => (i, 100 + i)))
      (by decide) (by decide)⟩

/-- C7 as stated fails: with `MaxSize` 2^62 (at least 1) and tasks of 8 bytes, `make`
rejects the capacity, so the one submission panics in `newBatch`; the remainder
`1 % 2^62 = 1` is not 0, yet no batch is open and nothing is dispatched. -/
theorem batch_sizing_fails_when_capacity_rejected :
    1 ≤ 2 ^ 62 ∧ [((5 : Nat), (0 : Nat))].length % 2 ^ 62 ≠ 0 ∧
    ((World.init { MaxSize := ((2 ^ 62 : Nat) : Int), MaxLinger := 0 }).exec intAlloc
        (submits [(5, 0)]) : World Nat Nat).be.currentBatch = none ∧
    ((World.init { MaxSize := ((2 ^ 62 : Nat) : Int), MaxLinger := 0 }).exec intAlloc
        (submits [(5, 0)]) : World Nat Nat).dispatched = [] ∧
    ((World.init { MaxSize := ((2 ^ 62 : Nat) : Int), MaxLinger := 0 }).exec intAlloc
        (submits [(5, 0)]) : World Nat Nat).panicked = true := by
  refine ⟨by decide, by decide, by decide, by decide, by decide⟩

/-! ### Alignment of tasks and futures -/

theorem pairs_add {T F : Type} (b : batch T F) (task : T) (future : F)
    (h : b.tasks.length = b.futures.length) :
    (b.add task future).pairs = b.pairs ++ [(task, future)] := by
  simp only [batch.pairs, batch.add]
  rw [List.zip_append h]
  rfl

/-- One call keeps the batches aligned: the batches it dispatches and the batch it leaves
open have as many futures as tasks. -/
theorem aligned_call {T F : Type} (al : Alloc) (be : BatchExecutor T F) (op : Op T F)
    (h : OpenAligned be) :
    (∀ d ∈ dispatchedOf (op.call al be).started, d.tasks.length = d.futures.length) ∧
      OpenAligned (op.call al be).be := by
  cases op with
  | submit task future =>
    cases hcur : be.currentBatch with
    | some b =>
      have hb := h b hcur
      simp only [Op.call, addTask_of_open al be b task future hcur]
      split
      · refine ⟨?_, ?_⟩
        · intro d hd
          simp only [dispatchedOf, List.filterMap_cons, Goroutine.batch?, List.filterMap_nil,
            List.mem_singleton] at hd
          subst hd
          simp [batch.add, hb]
        · intro c hc; simp at hc
      · refine ⟨?_, ?_⟩
        · intro d hd; simp [dispatchedOf] at hd
        · intro c hc
          simp only [Option.some.injEq] at hc
          subst hc
          simp [batch.add, hb]
    | none =>
      by_cases hm : be.maxSize < 0 ∨ al.maxCap < be.maxSize
      · simp only [Op.call, addTask_of_rejected al be task future hcur hm]
        refine ⟨?_, ?_⟩
        · intro d hd; simp [dispatchedOf] at hd
        · intro c hc
          rw [hcur] at hc
          cases hc
      · simp only [Op.call, addTask_of_closed al be task future hcur (by omega) (by omega)]
        split
        · refine ⟨?_, ?_⟩
          · intro d hd
            simp only [dispatchedOf, List.filterMap_cons, Goroutine.batch?,
              List.filterMap_nil, List.mem_singleton] at hd
            subst hd
            rfl
          · intro c hc; simp at hc
        · refine ⟨?_, ?_⟩
          · intro d hd; simp [dispatchedOf, Goroutine.batch?] at hd
          · intro c hc
            simp only [Option.some.injEq] at hc
            subst hc
            rfl
  | timer batchId =>
    cases hcur : be.currentBatch with
    | some b =>
      have hb := h b hcur
      by_cases hid : b.id = batchId
      · subst hid
        simp only [Op.call, expireBatch, hcur, if_true]
        refine ⟨?_, ?_⟩
        · intro d hd
          simp only [dispatchedOf, List.filterMap_cons, Goroutine.batch?, List.filterMap_nil,
            List.mem_singleton] at hd
          subst hd
          exact hb
        · intro c hc; simp at hc
      · simp only [Op.call, expireBatch, hcur, hid, if_false]
        exact ⟨fun d hd => by simp [dispatchedOf] at hd, h⟩
    | none =>
      simp only [Op.call, expireBatch, hcur]
      exact ⟨fun d hd => by simp [dispatchedOf] at hd, h⟩

/-- One call with a capacity that `make` accepts, on aligned batches: the pairs of the
batches it dispatches, then those of the batch it leaves open, are the pairs that were
open before, then the submitted pair if the call is a submission. -/
theorem pairs_call {T F : Type} (al : Alloc) (be : BatchExecutor T F) (op : Op T F)
    (h : OpenAligned be) (hm : 0 ≤ be.maxSize) (hcap : be.maxSize ≤ al.maxCap) :
    (dispatchedOf (op.call al be).started).flatMap batch.pairs
        ++ (op.call al be).be.currentBatch.toList.flatMap batch.pairs
      = be.currentBatch.toList.flatMap batch.pairs ++ op.pair?.toList := by
  cases op with
  | submit task future =>
    cases hcur : be.currentBatch with
    | some b =>
      have hb := h b hcur
      simp only [Op.call, addTask_of_open al be b task future hcur]
      split <;>
        simp [dispatchedOf, Goroutine.batch?, pairs_add b task future hb, Op.pair?]
    | none =>
      simp only [Op.call, addTask_of_closed al be task future hcur hm hcap]
      split <;>
        simp [dispatchedOf, Goroutine.batch?, batch.pairs, Op.pair?]
  | timer batchId =>
    cases hcur : be.currentBatch with
    | some b =>
      by_cases hid : b.id = batchId <;>
        simp [Op.call, expireBatch, hcur, hid, dispatchedOf, Goroutine.batch?, Op.pair?]
    | none =>
      simp [Op.call, expireBatch, hcur, dispatchedOf, Op.pair?]

theorem batches_step {T F : Type} (al : Alloc) (w : World T F) (op : Op T F) :
    (w.step al op).batches
      = w.dispatched ++ (dispatchedOf (op.call al w.be).started
          ++ (op.call al w.be).be.currentBatch.toList) := by
  simp [World.batches, World.dispatched, World.step, dispatchedOf_append]

/-- A run keeps every batch aligned. -/
theorem aligned_exec {T F : Type} (al : Alloc) (ops : List (Op T F)) :
    ∀ w : World T F, (∀ d ∈ w.dispatched, d.tasks.length = d.futures.length) →
      OpenAligned w.be →
      (∀ d ∈ (w.exec al ops).dispatched, d.tasks.length = d.futures.length) ∧
        OpenAligned (w.exec al ops).be := by
  induction ops with
  | nil => intro w hd ho; exact ⟨hd, ho⟩
  | cons op ops ih =>
    intro w hd ho
    obtain ⟨hd1, ho1⟩ := aligned_call al w.be op ho
    apply ih (w.step al op)
    · intro d hmem
      rw [dispatched_step] at hmem
      rcases List.mem_append.mp hmem with hmem | hmem
      · exact hd d hmem
      · exact hd1 d hmem
    · exact ho1

/-- A run with a capacity that `make` accepts, from aligned batches, appends the
submitted pairs, in order, to the pairs of the batches. -/
theorem pairs_exec {T F : Type} (al : Alloc) (ops : List (Op T F)) :
    ∀ w : World T F, OpenAligned w.be → 0 ≤ w.be.maxSize → w.be.maxSize ≤ al.maxCap →
      (w.exec al ops).batches.flatMap batch.pairs
        = w.batches.flatMap batch.pairs ++ submittedPairs ops := by
  induction ops with
  | nil => intro w _ _ _; simp [World.exec, submittedPairs]
  | cons op ops ih =>
    intro w ho hm hcap
    have ho1 : OpenAligned (w.step al op).be := (aligned_call al w.be op ho).2
    have hmax : (w.step al op).be.maxSize = w.be.maxSize := maxSize_call al w.be op
    show ((w.step al op).exec al ops).batches.flatMap batch.pairs = _
    rw [ih (w.step al op) ho1 (by rw [hmax]; exact hm) (by rw [hmax]; exact hcap),
      batches_step, List.flatMap_append, List.flatMap_append,
      pairs_call al w.be op ho hm hcap]
    cases op <;> simp [World.batches, submittedPairs, Op.pair?]

/-- With a capacity that `make` rejects and no batch open, a run never opens or
dispatches a batch: every submission panics in `newBatch`. -/
theorem rejected_exec {T F : Type} (al : Alloc) (ops : List (Op T F)) :
    ∀ w : World T F, (w.be.maxSize < 0 ∨ al.maxCap < w.be.maxSize) →
      w.be.currentBatch = none →
      (w.exec al ops).be.currentBatch = none ∧ (w.exec al ops).dispatched = w.dispatched := by
  induction ops with
  | nil => intro w _ hc; exact ⟨hc, rfl⟩
  | cons op ops ih =>
    intro w hm hc
    have hmax : (w.step al op).be.maxSize = w.be.maxSize := maxSize_call al w.be op
    have hstep : (w.step al op).be.currentBatch = none ∧
        (w.step al op).dispatched = w.dispatched := by
      rw [dispatched_step]
      cases op with
      | submit task future =>
        simp [World.step, Op.call, addTask_of_rejected al w.be task future hc hm,
          hc, dispatchedOf]
      | timer batchId =>
        simp [World.step, Op.call, expireBatch, hc, dispatchedOf]
    obtain ⟨h2, h3⟩ := hstep
    obtain ⟨h4, h5⟩ := ih (w.step al op) (by rw [hmax]; exact hm) h2
    exact ⟨h4, h5.trans h3⟩

/-- C11: in every state reached from a freshly constructed executor by submissions and
timer firings, every batch, dispatched or open, has as many futures as tasks; the pairs
`(tasks[i], futures[i])` of the batches, read in dispatch order and then in the open
batch, are exactly the (task, future) pairs handed to `addTask`, in submission order
(none at all when `make` rejects `MaxSize` as a capacity, where every submission panics
before a batch exists); so whenever `tasks[i]` and `futures[i]` exist in a batch, one and
the same submission supplied that task and that future. -/
theorem batches_aligned {T F : Type} (al : Alloc) (opts : BatchOpts) (ops : List (Op T F)) :
    (∀ b ∈ ((World.init opts).exec al ops).batches, b.tasks.length = b.futures.length) ∧
    ((World.init opts).exec al ops).batches.flatMap batch.pairs
      = (if 0 ≤ opts.MaxSize ∧ opts.MaxSize ≤ al.maxCap then submittedPairs ops else []) ∧
    (∀ b ∈ ((World.init opts).exec al ops).batches, ∀ (i : Nat) (t : T) (f : F),
      b.tasks[i]? = some t → b.futures[i]? = some f → Op.submit t f ∈ ops) := by
  have hd0 : ∀ d ∈ (World.init opts : World T F).dispatched,
      d.tasks.length = d.futures.length := by
    intro d hd; simp [World.init, World.dispatched, dispatchedOf] at hd
  have ho0 : OpenAligned (World.init opts : World T F).be := by
    intro c hc; simp [World.init, NewExecutor] at hc
  obtain ⟨hd, ho⟩ := aligned_exec al ops (World.init opts) hd0 ho0
  have hlen : ∀ b ∈ ((World.init opts).exec al ops).batches,
      b.tasks.length = b.futures.length := by
    intro b hb
    rcases List.mem_append.mp hb with hb | hb
    · exact hd b hb
    · exact ho b (by simpa using hb)
  have hpairs : ((World.init opts).exec al ops).batches.flatMap batch.pairs
      = (if 0 ≤ opts.MaxSize ∧ opts.MaxSize ≤ al.maxCap then submittedPairs ops
          else []) := by
    by_cases hm : 0 ≤ opts.MaxSize ∧ opts.MaxSize ≤ al.maxCap
    · rw [if_pos hm, pairs_exec al ops (World.init opts) ho0 hm.1 hm.2]
      simp [World.batches, World.init, World.dispatched, dispatchedOf, NewExecutor]
    · rw [if_neg hm]
      obtain ⟨hc, hdis⟩ := rejected_exec al ops (World.init opts : World T F)
        (by show opts.MaxSize < 0 ∨ al.maxCap < opts.MaxSize; omega) rfl
      have hnil : (World.init opts : World T F).dispatched = [] := rfl
      rw [World.batches, hc, hdis, hnil]
      rfl
  refine ⟨hlen, hpairs, ?_⟩
  intro b hb i t f ht hf
  have hz : (b.tasks.zip b.futures)[i]? = some (t, f) :=
    List.getElem?_zip_eq_some.mpr ⟨ht, hf⟩
  have hmem : (t, f) ∈ ((World.init opts).exec al ops).batches.flatMap batch.pairs :=
    List.mem_flatMap.mpr ⟨b, hb, List.getElem?_mem hz⟩
  rw [hpairs] at hmem
  by_cases hm : 0 ≤ opts.MaxSize ∧ opts.MaxSize ≤ al.maxCap
  · rw [if_pos hm] at hmem
    obtain ⟨op, hop, hpair⟩ := List.mem_filterMap.mp hmem
    cases op with
    | submit task future =>
      simp only [Op.pair?, Option.some.injEq, Prod.mk.injEq] at hpair
      obtain ⟨rfl, rfl⟩ := hpair
      exact hop
    | timer batchId => simp [Op.pair?] at hpair
  · rw [if_neg hm] at hmem
    cases hmem

/-! ### Sequence numbers and timers -/

theorem timersOf_append {T F : Type} (gs hs : List (Goroutine T F)) :
    timersOf (gs ++ hs) = timersOf gs ++ timersOf hs := by
  simp [timersOf]

theorem timers_step {T F : Type} (al : Alloc) (w : World T F) (op : Op T F) :
    (w.step al op).timers = w.timers ++ timersOf (op.call al w.be).started := by
  simp [World.timers, World.step, timersOf_append]

/-- One call: the counter is incremented (with wrap-around) exactly when the call is a
submission that finds no batch open, and is left alone otherwise. -/
theorem sequenceNum_call {T F : Type} (al : Alloc) (be : BatchExecutor T F) (op : Op T F) :
    (op.call al be).be.sequenceNum
      = if opensBatch be op then wrapInt (be.sequenceNum + 1) else be.sequenceNum := by
  cases op with
  | submit task future =>
    cases hcur : be.currentBatch with
    | some b =>
      simp only [Op.call, addTask_of_open al be b task future hcur, opensBatch, hcur]
      split <;> simp
    | none =>
      by_cases hm : be.maxSize < 0 ∨ al.maxCap < be.maxSize
      · simp [Op.call, addTask_of_rejected al be task future hcur hm, opensBatch, hcur]
      · simp only [Op.call, addTask_of_closed al be task future hcur (by omega) (by omega),
          opensBatch, hcur]
        split <;> simp
  | timer batchId =>
    simp only [Op.call, expireBatch, opensBatch]
    split
    · split <;> simp
    · simp

/-- One call with a capacity that `make` accepts: one timer is started, carrying the new
value of the counter, exactly when the call is a submission that finds no batch open. -/
theorem timers_call {T F : Type} (al : Alloc) (be : BatchExecutor T F) (op : Op T F)
    (hm : 0 ≤ be.maxSize) (hcap : be.maxSize ≤ al.maxCap) :
    timersOf (op.call al be).started
      = if opensBatch be op then [wrapInt (be.sequenceNum + 1)] else [] := by
  cases op with
  | submit task future =>
    cases hcur : be.currentBatch with
    | some b =>
      simp only [Op.call, addTask_of_open al be b task future hcur, opensBatch, hcur]
      split <;> simp [timersOf, Goroutine.timer?]
    | none =>
      simp only [Op.call, addTask_of_closed al be task future hcur hm hcap, opensBatch,
        hcur]
      split <;> simp [timersOf, Goroutine.timer?]
  | timer batchId =>
    simp only [Op.call, expireBatch, opensBatch]
    split
    · split <;> simp [timersOf, Goroutine.timer?]
    · simp [timersOf]

/-- One call with a capacity that `make` accepts: the ids of the batches it dispatches,
then of the batch it leaves open, are the id of the batch that was open before, then the
ids of the timers it starts. -/
theorem ids_call {T F : Type} (al : Alloc) (be : BatchExecutor T F) (op : Op T F)
    (hm : 0 ≤ be.maxSize) (hcap : be.maxSize ≤ al.maxCap) :
    (dispatchedOf (op.call al be).started
        ++ (op.call al be).be.currentBatch.toList).map batch.id
      = be.currentBatch.toList.map batch.id ++ timersOf (op.call al be).started := by
  cases op with
  | submit task future =>
    cases hcur : be.currentBatch with
    | some b =>
      simp only [Op.call, addTask_of_open al be b task future hcur]
      split <;> simp [dispatchedOf, Goroutine.batch?, timersOf, Goroutine.timer?, batch.add]
    | none =>
      simp only [Op.call, addTask_of_closed al be task future hcur hm hcap]
      split <;> simp [dispatchedOf, Goroutine.batch?, timersOf, Goroutine.timer?]
  | timer batchId =>
    cases hcur : be.currentBatch with
    | some b =>
      by_cases hid : b.id = batchId <;>
        simp [Op.call, expireBatch, hcur, hid, dispatchedOf, Goroutine.batch?, timersOf,
          Goroutine.timer?]
    | none =>
      simp [Op.call, expireBatch, hcur, dispatchedOf, timersOf]

/-- A run with a capacity that `make` accepts: the timers started during it carry, in
order, the ids of the batches created during it. -/
theorem ids_exec {T F : Type} (al : Alloc) (ops : List (Op T F)) :
    ∀ w : World T F, 0 ≤ w.be.maxSize → w.be.maxSize ≤ al.maxCap →
      w.timers = w.batches.map batch.id →
      (w.exec al ops).timers = (w.exec al ops).batches.map batch.id := by
  induction ops with
  | nil => intro w _ _ h; exact h
  | cons op ops ih =>
    intro w hm hcap h
    have hmax : (w.step al op).be.maxSize = w.be.maxSize := maxSize_call al w.be op
    apply ih (w.step al op) (by rw [hmax]; exact hm) (by rw [hmax]; exact hcap)
    rw [timers_step, batches_step, ← List.append_assoc, List.map_append, List.map_append,
      h, World.batches, List.map_append, List.append_assoc, List.append_assoc]
    congr 1
    have := ids_call al w.be op hm hcap
    rw [List.map_append] at this
    exact this.symm

/-- A run of fewer than 2^63 steps with a capacity that `make` accepts: the counter is
the number of timers started, and the timers carry the ids 1, 2, 3, ... in order. -/
theorem seq_exec {T F : Type} (al : Alloc) (ops : List (Op T F)) :
    ∀ (w : World T F) (n : Nat), 0 ≤ w.be.maxSize → w.be.maxSize ≤ al.maxCap →
      w.be.sequenceNum = (w.timers.length : Int) → w.timers.length ≤ n →
      w.timers = (List.range w.timers.length).map (fun k : Nat => (k : Int) + 1) →
      n + ops.length < 2 ^ 63 →
      (w.exec al ops).be.sequenceNum = ((w.exec al ops).timers.length : Int) ∧
        (w.exec al ops).timers
          = (List.range (w.exec al ops).timers.length).map (fun k : Nat => (k : Int) + 1) := by
  induction ops with
  | nil => intro w n _ _ hs _ ht _; exact ⟨hs, ht⟩
  | cons op ops ih =>
    intro w n hm hcap hs hn ht hlen
    simp only [List.length_cons] at hlen
    have hmax : (w.step al op).be.maxSize = w.be.maxSize := maxSize_call al w.be op
    have hw : wrapInt (w.be.sequenceNum + 1) = w.be.sequenceNum + 1 :=
      wrapInt_eq_self _ (by omega) (by omega)
    have hseq : (w.step al op).be.sequenceNum
        = if opensBatch w.be op then w.be.sequenceNum + 1 else w.be.sequenceNum := by
      show (op.call al w.be).be.sequenceNum = _
      rw [sequenceNum_call, hw]
    have htim : (w.step al op).timers
        = w.timers ++ (if opensBatch w.be op then [w.be.sequenceNum + 1] else []) := by
      rw [timers_step, timers_call al w.be op hm hcap, hw]
    have hstep : (w.step al op).be.sequenceNum = ((w.step al op).timers.length : Int) ∧
        (w.step al op).timers.length ≤ n + 1 ∧
        (w.step al op).timers
          = (List.range (w.step al op).timers.length).map (fun k : Nat => (k : Int) + 1) := by
      rw [hseq, htim]
      by_cases ho : opensBatch w.be op = true
      · simp only [ho, if_true, List.length_append, List.length_singleton]
        refine ⟨by push_cast; omega, by omega, ?_⟩
        rw [List.range_succ, List.map_append, ← ht, hs]
        rfl
      · simp only [ho, Bool.false_eq_true, if_false, List.append_nil]
        exact ⟨hs, by omega, ht⟩
    obtain ⟨h1, h2, h3⟩ := hstep
    exact ih (w.step al op) (n + 1) (by rw [hmax]; exact hm) (by rw [hmax]; exact hcap)
      h1 h2 h3 (by omega)

/-- C12, as amended: from a freshly constructed executor (`sequenceNum = 0`) whose
`MaxSize` is a capacity that `make` accepts for the task type (not negative, at most
`al.maxCap`), over a run of fewer than 2^63 steps (within which the 64-bit counter does
not wrap: the integers behave as unbounded ones), `sequenceNum` is the number of batches
created so far; the batches, in creation order, carry the ids 1, 2, 3, ..., which are
strictly increasing and so pairwise distinct; an open batch carries the current
`sequenceNum`; and the next step adds one to `sequenceNum` exactly when it is a
submission that opens a new batch (one more batch exists after it), leaves it unchanged
otherwise, and never decreases it. -/
theorem sequenceNum_counts_batches {T F : Type} (al : Alloc) (opts : BatchOpts)
    (ops : List (Op T F)) (op : Op T F) (hm : 0 ≤ opts.MaxSize)
    (hcap : opts.MaxSize ≤ al.maxCap) (hlen : ops.length + 1 < 2 ^ 63) :
    ((World.init opts).exec al ops).be.sequenceNum
        = (((World.init opts).exec al ops).batches.length : Int) ∧
    ((World.init opts).exec al ops).batches.map batch.id
        = (List.range ((World.init opts).exec al ops).batches.length).map
            (fun k : Nat => (k : Int) + 1) ∧
    (((World.init opts).exec al ops).batches.map batch.id).Pairwise (fun a b => a < b) ∧
    (∀ c, ((World.init opts).exec al ops).be.currentBatch = some c →
      c.id = ((World.init opts).exec al ops).be.sequenceNum) ∧
    (((World.init opts).exec al ops).step al op).batches.length
        = ((World.init opts).exec al ops).batches.length
          + (if opensBatch ((World.init opts).exec al ops).be op then 1 else 0) ∧
    (((World.init opts).exec al ops).step al op).be.sequenceNum
        = (if opensBatch ((World.init opts).exec al ops).be op
            then ((World.init opts).exec al ops).be.sequenceNum + 1
            else ((World.init opts).exec al ops).be.sequenceNum) ∧
    ((World.init opts).exec al ops).be.sequenceNum
        ≤ (((World.init opts).exec al ops).step al op).be.sequenceNum := by
  have hinit : (World.init opts : World T F).timers
      = (World.init opts : World T F).batches.map batch.id := rfl
  have hids := ids_exec al ops (World.init opts : World T F) hm hcap hinit
  have hmaxW : ((World.init opts).exec al ops : World T F).be.maxSize = opts.MaxSize :=
    maxSize_exec al ops (World.init opts)
  have hids1 := ids_exec al [op] ((World.init opts).exec al ops : World T F)
    (by rw [hmaxW]; exact hm) (by rw [hmaxW]; exact hcap) hids
  have hexec1 : (((World.init opts).exec al ops).exec al [op] : World T F)
      = ((World.init opts).exec al ops).step al op := rfl
  rw [hexec1] at hids1
  obtain ⟨hseq, htim⟩ := seq_exec al ops (World.init opts : World T F) 0 hm hcap rfl
    (Nat.le_refl _) rfl (by omega)
  obtain ⟨h0, hle, -, -, hcur⟩ := idInv_exec al ops (World.init opts : World T F) 0
    (idInv_init opts) (by omega)
  have hlenEq : ((World.init opts).exec al ops).timers.length
      = ((World.init opts).exec al ops).batches.length := by
    rw [hids, List.length_map]
  have hw : wrapInt (((World.init opts).exec al ops).be.sequenceNum + 1)
      = ((World.init opts).exec al ops).be.sequenceNum + 1 := by
    apply wrapInt_eq_self
    · omega
    · have : (((0 + ops.length : Nat) : Int)) < 2 ^ 63 - 1 := by omega
      omega
  have hstep : (((World.init opts).exec al ops).step al op).be.sequenceNum
      = (if opensBatch ((World.init opts).exec al ops).be op
          then ((World.init opts).exec al ops).be.sequenceNum + 1
          else ((World.init opts).exec al ops).be.sequenceNum) := by
    show (op.call al ((World.init opts).exec al ops).be).be.sequenceNum = _
    rw [sequenceNum_call, hw]
  have hbat : (((World.init opts).exec al ops).step al op).batches.length
      = ((World.init opts).exec al ops).batches.length
        + (if opensBatch ((World.init opts).exec al ops).be op then 1 else 0) := by
    have h1 : (((World.init opts).exec al ops).step al op).batches.length
        = (((World.init opts).exec al ops).step al op).timers.length := by
      rw [hids1, List.length_map]
    rw [h1, timers_step, List.length_append,
      timers_call al _ op (by rw [hmaxW]; exact hm) (by rw [hmaxW]; exact hcap), hlenEq]
    split <;> rfl
  refine ⟨?_, ?_, ?_, fun c hc => (hcur c hc).1, hbat, hstep, ?_⟩
  · rw [hseq, hlenEq]
  · rw [← hids, ← hlenEq]
    exact htim
  · rw [← hids, htim]
    exact List.Pairwise.map _ (fun a b hab => by omega) (List.pairwise_lt_range _)
  · rw [hstep]
    split <;> omega

/-- Witness of C12: `MaxSize` 2; two submissions fill batch 1, its timer fires late, a
third submission opens batch 2; the next step is a submission into batch 2. -/
theorem sequenceNum_counts_batches_witness :
    (0 : Int) ≤ 2 ∧ (2 : Int) ≤ intAlloc.maxCap ∧
    [Op.submit 7 0, Op.submit 8 1, Op.timer 1, (Op.submit 9 2 : Op Nat Nat)].length + 1
      < 2 ^ 63 ∧
    (((World.init { MaxSize := 2, MaxLinger := 0 }).exec intAlloc
        [Op.submit 7 0, Op.submit 8 1, Op.timer 1, Op.submit 9 2]
          : World Nat Nat).be.sequenceNum
        = (((World.init { MaxSize := 2, MaxLinger := 0 }).exec intAlloc
            [Op.submit 7 0, Op.submit 8 1, Op.timer 1, Op.submit 9 2]
              : World Nat Nat).batches.length : Int) ∧
    ((World.init { MaxSize := 2, MaxLinger := 0 }).exec intAlloc
        [Op.submit 7 0, Op.submit 8 1, Op.timer 1, Op.submit 9 2]
          : World Nat Nat).batches.map batch.id
        = (List.range 2).map (fun k : Nat => (k : Int) + 1) ∧
    (((World.init { MaxSize := 2, MaxLinger := 0 }).exec intAlloc
        [Op.submit 7 0, Op.submit 8 1, Op.timer 1, Op.submit 9 2]
          : World Nat Nat).batches.map batch.id).Pairwise (fun a b => a < b) ∧
    (∀ c, ((World.init { MaxSize := 2, MaxLinger := 0 }).exec intAlloc
        [Op.submit 7 0, Op.submit 8 1, Op.timer 1, Op.submit 9 2]
          : World Nat Nat).be.currentBatch = some c → c.id = 2) ∧
    (((World.init { MaxSize := 2, MaxLinger := 0 }).exec intAlloc
        [Op.submit 7 0, Op.submit 8 1, Op.timer 1, Op.submit 9 2]
          : World Nat Nat).step intAlloc (Op.submit 10 3)).batches.length = 2 + 0 ∧
    (((World.init { MaxSize := 2, MaxLinger := 0 }).exec intAlloc
        [Op.submit 7 0, Op.submit 8 1, Op.timer 1, Op.submit 9 2]
          : World Nat Nat).step intAlloc (Op.submit 10 3)).be.sequenceNum
        = (if opensBatch ((World.init { MaxSize := 2, MaxLinger := 0 }).exec intAlloc
              [Op.submit 7 0, Op.submit 8 1, Op.timer 1, Op.submit 9 2]
                : World Nat Nat).be (Op.submit 10 3)
            then 2 + 1 else 2) ∧
    (2 : Int) ≤ (((World.init { MaxSize := 2, MaxLinger := 0 }).exec intAlloc
        [Op.submit 7 0, Op.submit 8 1, Op.timer 1, Op.submit 9 2]
          : World Nat Nat).step intAlloc (Op.submit 10 3)).be.sequenceNum) :=
  ⟨by decide, by decide, by decide,
    sequenceNum_counts_batches intAlloc { MaxSize := 2, MaxLinger := 0 }
      [Op.submit 7 0, Op.submit 8 1, Op.timer 1, Op.submit 9 2] (Op.submit 10 3)
      (by decide) (by decide) (by decide)⟩

/-- C12 as stated fails: with `MaxSize` 2^62 and tasks of 8 bytes, the first submission
on a fresh executor increments `sequenceNum` from 0 to 1 and then panics in `make`: the
step opens no batch (none exists after it), yet `sequenceNum` has changed, and it is no
longer the number of batches created. -/
theorem sequenceNum_grows_without_batch :
    (World.init { MaxSize := 2 ^ 62, MaxLinger := 0 } : World Nat Nat).be.sequenceNum = 0 ∧
    ((World.init { MaxSize := 2 ^ 62, MaxLinger := 0 } : World Nat Nat).step intAlloc
        (Op.submit 5 0)).be.sequenceNum = 1 ∧
    ((World.init { MaxSize := 2 ^ 62, MaxLinger := 0 } : World Nat Nat).step intAlloc
        (Op.submit 5 0)).batches = [] ∧
    ((World.init { MaxSize := 2 ^ 62, MaxLinger := 0 } : World Nat Nat).step intAlloc
        (Op.submit 5 0)).panicked = true := by
  refine ⟨by decide, by decide, by decide, by decide⟩

/-! ### Submission and the caller's context -/

/-- The effect of `addTask` on everything but the identity of the futures does not
depend on the future it is given. -/
theorem addTask_shape {T F : Type} (al : Alloc) (be : BatchExecutor T F) (task : T)
    (future : F) :
    (addTask al be task future).shape = addTask al be.shape task () := by
  cases hcur : be.currentBatch with
  | some b =>
    have hs : be.shape.currentBatch = some b.shape := by
      simp [BatchExecutor.shape, hcur]
    rw [addTask_of_open al be b task future hcur,
      addTask_of_open al be.shape b.shape task () hs]
    have hlen : (b.shape.add task ()).tasks.length = (b.add task future).tasks.length := rfl
    have hmax : be.shape.maxSize = be.maxSize := rfl
    rw [hlen, hmax]
    split <;>
      simp [Ret.shape, BatchExecutor.shape, Goroutine.shape, batch.shape, batch.add]
  | none =>
    have hs : be.shape.currentBatch = none := by
      simp [BatchExecutor.shape, hcur]
    have hmax : be.shape.maxSize = be.maxSize := rfl
    have hseq : be.shape.sequenceNum = be.sequenceNum := rfl
    by_cases hm : be.maxSize < 0 ∨ al.maxCap < be.maxSize
    · rw [addTask_of_rejected al be task future hcur hm,
        addTask_of_rejected al be.shape task () hs (by rw [hmax]; exact hm)]
      simp [Ret.shape, BatchExecutor.shape, hcur]
    · rw [addTask_of_closed al be task future hcur (by omega) (by omega),
        addTask_of_closed al be.shape task () hs (by rw [hmax]; omega)
          (by rw [hmax]; omega), hmax, hseq]
      split <;>
        simp [Ret.shape, BatchExecutor.shape, Goroutine.shape, batch.shape, hcur]

/-- A submission when a batch is open, or when `make` accepts the capacity: the call
returns, and the task and the future are appended to the open batch (to a new batch
when none was open), which is then left open or dispatched. -/
theorem addTask_appends {T F : Type} (al : Alloc) (be : BatchExecutor T F) (task : T)
    (future : F)
    (h : be.currentBatch.isSome = true ∨ (0 ≤ be.maxSize ∧ be.maxSize ≤ al.maxCap)) :
    (addTask al be task future).val = some () ∧
      ∃ b1 : batch T F,
        b1.tasks = openTasks be ++ [task] ∧ b1.futures = openFutures be ++ [future] ∧
        (∀ b, be.currentBatch = some b → b1.id = b.id) ∧
        (((addTask al be task future).be.currentBatch = some b1 ∧
            dispatchedOf (addTask al be task future).started = []) ∨
          ((addTask al be task future).be.currentBatch = none ∧
            dispatchedOf (addTask al be task future).started = [b1])) := by
  cases hcur : be.currentBatch with
  | some b =>
    rw [addTask_of_open al be b task future hcur]
    split
    · refine ⟨rfl, b.add task future, ?_, ?_, ?_, Or.inr ⟨rfl, rfl⟩⟩
      · simp [batch.add, openTasks, hcur]
      · simp [batch.add, openFutures, hcur]
      · intro b0 hb0
        simp only [Option.some.injEq] at hb0
        subst hb0
        rfl
    · refine ⟨rfl, b.add task future, ?_, ?_, ?_, Or.inl ⟨rfl, rfl⟩⟩
      · simp [batch.add, openTasks, hcur]
      · simp [batch.add, openFutures, hcur]
      · intro b0 hb0
        simp only [Option.some.injEq] at hb0
        subst hb0
        rfl
  | none =>
    have hacc : 0 ≤ be.maxSize ∧ be.maxSize ≤ al.maxCap := by
      rcases h with h | h
      · simp [hcur] at h
      · exact h
    rw [addTask_of_closed al be task future hcur hacc.1 hacc.2]
    split
    · refine ⟨rfl, _, ?_, ?_, ?_, Or.inr ⟨rfl, rfl⟩⟩
      · simp [openTasks, hcur]
      · simp [openFutures, hcur]
      · intro b0 hb0; cases hb0
    · refine ⟨rfl, _, ?_, ?_, ?_, Or.inl ⟨rfl, rfl⟩⟩
      · simp [openTasks, hcur]
      · simp [openFutures, hcur]
      · intro b0 hb0; cases hb0

/-- No call takes a task or a future out of the open batch: after the call the batch is
still open or has just been dispatched, under the same id, and its tasks and futures
begin with the ones it had. -/
theorem open_batch_kept {T F : Type} (al : Alloc) (be : BatchExecutor T F) (op : Op T F)
    (b : batch T F) (hcur : be.currentBatch = some b) :
    ∃ b1 : batch T F, b1.id = b.id ∧ b.tasks <+: b1.tasks ∧ b.futures <+: b1.futures ∧
      (((op.call al be).be.currentBatch = some b1 ∧
          dispatchedOf (op.call al be).started = []) ∨
        ((op.call al be).be.currentBatch = none ∧
          dispatchedOf (op.call al be).started = [b1])) := by
  cases op with
  | submit task future =>
    refine ⟨b.add task future, rfl, List.prefix_append _ _, List.prefix_append _ _, ?_⟩
    simp only [Op.call, addTask_of_open al be b task future hcur]
    split
    · right; exact ⟨rfl, rfl⟩
    · left; exact ⟨rfl, rfl⟩
  | timer batchId =>
    refine ⟨b, rfl, List.prefix_refl _, List.prefix_refl _, ?_⟩
    by_cases hid : b.id = batchId
    · right
      simp [Op.call, expireBatch, hcur, hid, dispatchedOf, Goroutine.batch?]
    · left
      simp [Op.call, expireBatch, hcur, hid, dispatchedOf]

/-- C13, as amended: for every executor state, task and pair of contexts, whatever future
`futures.New` makes from a context, the two calls of `SubmitF` have the same effect up
to the identity of the futures: the same `sequenceNum`, the same open batch (id, tasks,
number of futures), the same goroutines started (the same batch dispatched, the same
timer), the same outcome (returned or panicked). Whenever a batch is open, or `make`
accepts `maxSize` as a capacity, the call returns its future and the task and that
future are appended to the open batch (a new one when none was open), which is left
open or dispatched: the task occupies a slot whatever the context. Otherwise (no batch
open and a capacity that `make` rejects) the call panics in `newBatch` after the
increment of `sequenceNum`, for every context alike. And no call of the executor (`op`)
takes a task out of a batch: the open batch `b` is afterwards still open or just
dispatched, with its id and with its tasks and futures as the beginning of the new
ones. -/
theorem SubmitF_ignores_context {C T F : Type} (New : C → F) (al : Alloc)
    (be : BatchExecutor T F) (task : T) (ctx1 ctx2 : C) (op : Op T F) :
    (SubmitF New al be ctx1 task).shape = (SubmitF New al be ctx2 task).shape ∧
    ((be.currentBatch.isSome = true ∨ (0 ≤ be.maxSize ∧ be.maxSize ≤ al.maxCap)) →
      (SubmitF New al be ctx1 task).val = some (New ctx1) ∧
      ∃ b1 : batch T F,
        b1.tasks = openTasks be ++ [task] ∧ b1.futures = openFutures be ++ [New ctx1] ∧
        (∀ b, be.currentBatch = some b → b1.id = b.id) ∧
        (((SubmitF New al be ctx1 task).be.currentBatch = some b1 ∧
            dispatchedOf (SubmitF New al be ctx1 task).started = []) ∨
          ((SubmitF New al be ctx1 task).be.currentBatch = none ∧
            dispatchedOf (SubmitF New al be ctx1 task).started = [b1]))) ∧
    ((be.currentBatch = none ∧ (be.maxSize < 0 ∨ al.maxCap < be.maxSize)) →
      SubmitF New al be ctx1 task =
        { be := { be with sequenceNum := wrapInt (be.sequenceNum + 1) }
          started := []
          val := none }) ∧
    (∀ b : batch T F, be.currentBatch = some b →
      ∃ b1 : batch T F, b1.id = b.id ∧ b.tasks <+: b1.tasks ∧ b.futures <+: b1.futures ∧
        (((op.call al be).be.currentBatch = some b1 ∧
            dispatchedOf (op.call al be).started = []) ∨
          ((op.call al be).be.currentBatch = none ∧
            dispatchedOf (op.call al be).started = [b1]))) := by
  refine ⟨?_, ?_, ?_, fun b hb => open_batch_kept al be op b hb⟩
  · have h1 : (SubmitF New al be ctx1 task).shape
        = (addTask al be task (New ctx1)).shape := by
      simp only [SubmitF, Ret.shape, Option.map_map]
    have h2 : (SubmitF New al be ctx2 task).shape
        = (addTask al be task (New ctx2)).shape := by
      simp only [SubmitF, Ret.shape, Option.map_map]
    rw [h1, h2, addTask_shape, addTask_shape]
  · intro h
    obtain ⟨hval, b1, ht, hf, hid, hwhere⟩ := addTask_appends al be task (New ctx1) h
    refine ⟨?_, b1, ht, hf, hid, hwhere⟩
    simp [SubmitF, hval]
  · intro h
    simp [SubmitF, addTask_of_rejected al be task (New ctx1) h.1 h.2]

/-- Witness of C13: `MaxSize` 3, batch 1 open with one task; the context is `true`
(live) or `false` (cancelled) and `futures.New` makes the future 1 or 2 from it. The
submission with the cancelled context returns its future and the task 9 sits in the
open batch behind the task 7. -/
theorem SubmitF_ignores_context_witness :
    (SubmitF (fun c : Bool => if c then 1 else 2) intAlloc
        ((World.init { MaxSize := 3, MaxLinger := 0 }).exec intAlloc
          [Op.submit 7 0] : World Nat Nat).be true 9).shape
      = (SubmitF (fun c : Bool => if c then 1 else 2) intAlloc
        ((World.init { MaxSize := 3, MaxLinger := 0 }).exec intAlloc
          [Op.submit 7 0] : World Nat Nat).be false 9).shape ∧
    (SubmitF (fun c : Bool => if c then 1 else 2) intAlloc
        ((World.init { MaxSize := 3, MaxLinger := 0 }).exec intAlloc
          [Op.submit 7 0] : World Nat Nat).be false 9).val = some 2 ∧
    (SubmitF (fun c : Bool => if c then 1 else 2) intAlloc
        ((World.init { MaxSize := 3, MaxLinger := 0 }).exec intAlloc
          [Op.submit 7 0] : World Nat Nat).be false 9).be.currentBatch
      = some { id := 1, tasks := [7, 9], futures := [0, 2] } :=
  ⟨(SubmitF_ignores_context (fun c : Bool => if c then 1 else 2) intAlloc
      ((World.init { MaxSize := 3, MaxLinger := 0 }).exec intAlloc
        [Op.submit 7 0] : World Nat Nat).be 9 true false (Op.timer 0)).1,
    ((SubmitF_ignores_context (fun c : Bool => if c then 1 else 2) intAlloc
      ((World.init { MaxSize := 3, MaxLinger := 0 }).exec intAlloc
        [Op.submit 7 0] : World Nat Nat).be 9 false true (Op.timer 0)).2.1
      (Or.inl (by decide))).1,
    by decide⟩

/-- C13 as stated fails: on a fresh executor with `MaxSize` 2^62 and tasks of 8 bytes,
`SubmitF` panics in `make` (for any context): the task 5 is appended to no batch and
occupies no slot; only `sequenceNum` has moved. -/
theorem SubmitF_appends_nothing_when_capacity_rejected :
    SubmitF (fun _ : Unit => 0) intAlloc
        (NewExecutor { MaxSize := 2 ^ 62, MaxLinger := 0 } : BatchExecutor Nat Nat) () 5
      = { be := { sequenceNum := 1, currentBatch := none, maxSize := 2 ^ 62,
                  maxLinger := 0 }
          started := []
          val := none } := by
  decide

/-! ### The error value of `Fail` when `run` returns no outright error -/

theorem resolveOne_fail_err {T R E F : Type} (err : Option E) (f g : F) (r : Result R E)
    (e : Option E) (h : (resolveOne err f r : Call T R E F) = Call.Fail g e) : e = err := by
  unfold resolveOne at h
  cases hr : r.Err with
  | none => rw [hr] at h; cases h
  | some x =>
    rw [hr] at h
    simp only [Call.Fail.injEq] at h
    exact h.2.symm

/-- C15: when `run` returns a nil outright error, every `Fail` call that `runBatch`
issues carries `nil`, the value of the outer variable `err`. In the branch of the
result-count mismatch every future gets `Fail(nil)`, no dedicated mismatch error; in the
positional branch a future whose result carries the per-task error `e` gets `Fail(nil)`
as well, not `Fail(e)`. -/
theorem runBatch_fail_carries_outer_nil {T R E F : Type}
    (run : RunBatchFunction T R E) (b : batch T F) (he : (run b.tasks).2 = none) :
    (∀ c ∈ (runBatch run b).calls, ∀ (f : F) (err : Option E),
      c = Call.Fail f err → err = none) ∧
    ((run b.tasks).1.length ≠ b.tasks.length →
      (runBatch run b).calls
        = Call.run b.tasks :: b.futures.map (fun f => Call.Fail f none)) ∧
    (∀ (i : Nat) (f : F) (r : Result R E) (e : E),
      (run b.tasks).1.length = b.tasks.length →
      b.futures[i]? = some f → (run b.tasks).1[i]? = some r → r.Err = some e →
      (runBatch run b).calls[i + 1]? = some (Call.Fail f none)) := by
  refine ⟨?_, ?_, ?_⟩
  · intro c hc f err hcf
    by_cases hlen : (run b.tasks).1.length = b.tasks.length
    · rw [runBatch_of_match run b he hlen] at hc
      rcases List.mem_cons.mp hc with rfl | hc
      · cases hcf
      · obtain ⟨i, hi, hget⟩ := List.getElem_of_mem hc
        have hsome : (List.zipWith (resolveOne (none : Option E)) b.futures
            (run b.tasks).1)[i]? = some c := by
          rw [List.getElem?_eq_getElem hi, hget]
        rw [List.getElem?_zipWith] at hsome
        cases hf : b.futures[i]? with
        | none => simp [hf] at hsome
        | some g =>
          cases hr : (run b.tasks).1[i]? with
          | none => simp [hf, hr] at hsome
          | some r =>
            simp only [hf, hr, Option.some.injEq] at hsome
            rw [hcf] at hsome
            exact resolveOne_fail_err none g f r err hsome
    · rw [runBatch_of_mismatch run b he hlen] at hc
      rcases List.mem_cons.mp hc with rfl | hc
      · cases hcf
      · simp only [failAll, List.mem_map] at hc
        obtain ⟨g, -, hg⟩ := hc
        rw [hcf] at hg
        simp only [Call.Fail.injEq] at hg
        exact hg.2.symm
  · intro hlen
    rw [runBatch_of_mismatch run b he hlen]
    rfl
  · intro i f r e hlen hf hr hre
    rw [runBatch_of_match run b he hlen]
    simp [List.getElem?_zipWith, hf, hr, resolveOne, hre]

/-- Witness of C15: two tasks, no outright error; the second result carries the
per-task error 7 and its future gets `Fail(nil)`. -/
theorem runBatch_fail_carries_outer_nil_witness :
    (((fun _ => ([({ Val := 6, Err := none } : Result Nat Nat), { Val := 0, Err := some 7 }],
        none)) : RunBatchFunction Nat Nat Nat) [3, 4]).2 = none ∧
    (runBatch (fun _ => ([({ Val := 6, Err := none } : Result Nat Nat),
          { Val := 0, Err := some 7 }], none))
        ({ id := 1, tasks := [3, 4], futures := [10, 11] } : batch Nat Nat)).calls[1 + 1]?
      = some (Call.Fail 11 none) :=
  ⟨rfl,
    (runBatch_fail_carries_outer_nil
      (fun _ => ([({ Val := 6, Err := none } : Result Nat Nat), { Val := 0, Err := some 7 }],
        none))
      ({ id := 1, tasks := [3, 4], futures := [10, 11] } : batch Nat Nat) rfl).2.2
      1 11 { Val := 0, Err := some 7 } 7 rfl rfl rfl rfl⟩

/-! ### `maxSize` 1 and `maxSize` 0 -/

/-- A submission when no batch is open and `maxSize` is 0 or 1: the new batch is
dispatched at once with the one task, and no batch is left open. -/
theorem addTask_small {T F : Type} (al : Alloc) (be : BatchExecutor T F) (task : T)
    (future : F) (hcur : be.currentBatch = none) (h0 : 0 ≤ be.maxSize)
    (h1 : be.maxSize ≤ 1) :
    addTask al be task future =
      { be := { be with sequenceNum := wrapInt (be.sequenceNum + 1), currentBatch := none }
        started := [Goroutine.expireBatch (wrapInt (be.sequenceNum + 1)),
          Goroutine.runBatch
            { id := wrapInt (be.sequenceNum + 1), tasks := [task], futures := [future] }]
        val := some () } := by
  have hfit := al.fitsOne
  rw [addTask_of_closed al be task future hcur h0 (by omega), if_pos (by omega)]

/-- One step when no batch is open and `maxSize` is 0 or 1. -/
theorem small_step {T F : Type} (al : Alloc) (w : World T F) (op : Op T F)
    (hcur : w.be.currentBatch = none) (h0 : 0 ≤ w.be.maxSize) (h1 : w.be.maxSize ≤ 1) :
    (w.step al op).be.currentBatch = none ∧
      (w.step al op).be.maxSize = w.be.maxSize ∧
      (w.step al op).panicked = w.panicked ∧
      (w.step al op).be.sequenceNum
        = (if opensBatch w.be op then wrapInt (w.be.sequenceNum + 1)
            else w.be.sequenceNum) ∧
      (w.step al op).started = w.started ++ (match op with
        | Op.submit task future =>
          [Goroutine.expireBatch (wrapInt (w.be.sequenceNum + 1)),
            Goroutine.runBatch
              { id := wrapInt (w.be.sequenceNum + 1), tasks := [task], futures := [future] }]
        | Op.timer _ => []) := by
  cases op with
  | submit task future =>
    simp [World.step, Op.call, addTask_small al w.be task future hcur h0 h1, opensBatch, hcur]
  | timer batchId =>
    simp [World.step, Op.call, expireBatch, hcur, opensBatch]

/-- A run from a state with no batch open and `maxSize` 0 or 1: no batch is ever left
open, nothing panics, and the batches dispatched during the run hold the submissions
one by one, in order. -/
theorem small_exec {T F : Type} (al : Alloc) (ops : List (Op T F)) :
    ∀ w : World T F, w.be.currentBatch = none → 0 ≤ w.be.maxSize → w.be.maxSize ≤ 1 →
      (w.exec al ops).be.currentBatch = none ∧
        (w.exec al ops).be.maxSize = w.be.maxSize ∧
        (w.exec al ops).panicked = w.panicked ∧
        (w.exec al ops).dispatched.map batch.content
          = w.dispatched.map batch.content ++ (submittedPairs ops).map alone := by
  induction ops with
  | nil => intro w hc _ _; simp [World.exec, submittedPairs, hc]
  | cons op ops ih =>
    intro w hc h0 h1
    obtain ⟨s1, s2, s3, -, s5⟩ := small_step al w op hc h0 h1
    obtain ⟨e1, e2, e3, e4⟩ := ih (w.step al op) s1 (by rw [s2]; exact h0)
      (by rw [s2]; exact h1)
    refine ⟨e1, e2.trans s2, e3.trans s3, ?_⟩
    show ((w.step al op).exec al ops).dispatched.map batch.content = _
    rw [e4]
    have hd : (w.step al op).dispatched.map batch.content
        = w.dispatched.map batch.content ++ (submittedPairs [op]).map alone := by
      simp only [World.dispatched, s5, dispatchedOf_append, List.map_append]
      cases op <;>
        simp [dispatchedOf, Goroutine.batch?, batch.content, submittedPairs, Op.pair?, alone]
    have hsub : submittedPairs (op :: ops) = submittedPairs [op] ++ submittedPairs ops := by
      show (op :: ops).filterMap Op.pair? = [op].filterMap Op.pair? ++ ops.filterMap Op.pair?
      rw [← List.filterMap_append]
      rfl
    rw [hd, List.append_assoc, ← List.map_append, hsub]

/-- C16: with `maxSize` 1 and any `maxLinger`, in every state reached from a freshly
constructed executor by submissions and timer firings no batch is open; a submission
there dispatches exactly one batch, holding exactly its task and its future, and leaves
no batch open; a timer firing there, whatever its batch id, changes nothing and starts
nothing; and the batches dispatched so far are the submissions, one by one, each
dispatched once, in submission order. -/
theorem maxSize_one_size_wins {T F : Type} (al : Alloc) (linger : Int) (ops : List (Op T F))
    (task : T) (future : F) (batchId : Int) :
    ((World.init { MaxSize := 1, MaxLinger := linger }).exec al ops).be.currentBatch = none ∧
    (addTask al ((World.init { MaxSize := 1, MaxLinger := linger }).exec al ops).be task
        future).be.currentBatch = none ∧
    dispatchedOf (addTask al ((World.init { MaxSize := 1, MaxLinger := linger }).exec al ops).be
        task future).started
      = [{ id := wrapInt
            (((World.init { MaxSize := 1, MaxLinger := linger }).exec al ops).be.sequenceNum + 1)
           tasks := [task], futures := [future] }] ∧
    expireBatch ((World.init { MaxSize := 1, MaxLinger := linger }).exec al ops).be batchId
      = { be := ((World.init { MaxSize := 1, MaxLinger := linger }).exec al ops).be
          started := [], val := some () } ∧
    ((World.init { MaxSize := 1, MaxLinger := linger }).exec al ops).dispatched.map
        batch.content
      = (submittedPairs ops).map alone := by
  obtain ⟨hc, hm, -, hd⟩ := small_exec al ops
    (World.init { MaxSize := 1, MaxLinger := linger } : World T F) rfl
    (by show (0 : Int) ≤ 1; omega) (by show (1 : Int) ≤ 1; omega)
  have hm1 : ((World.init { MaxSize := 1, MaxLinger := linger }).exec al ops : World T F).be.maxSize
      = 1 := hm
  have hadd := addTask_small al
    ((World.init { MaxSize := 1, MaxLinger := linger }).exec al ops : World T F).be task future hc
    (by rw [hm1]; omega) (by rw [hm1])
  refine ⟨hc, ?_, ?_, ?_, ?_⟩
  · rw [hadd]
  · rw [hadd]
    simp [dispatchedOf, Goroutine.batch?]
  · simp [expireBatch, hc]
  · rw [hd]
    simp [World.init, World.dispatched, dispatchedOf]

/-- Two runs of the same steps, from states with no batch open, `maxSize` 0 or 1, the
same counter and the same goroutines started: they stay so. -/
theorem small_exec_eq {T F : Type} (al : Alloc) (ops : List (Op T F)) :
    ∀ w0 w1 : World T F, w0.be.currentBatch = none → w1.be.currentBatch = none →
      0 ≤ w0.be.maxSize → w0.be.maxSize ≤ 1 → 0 ≤ w1.be.maxSize → w1.be.maxSize ≤ 1 →
      w0.be.sequenceNum = w1.be.sequenceNum → w0.started = w1.started →
      (w0.exec al ops).be.sequenceNum = (w1.exec al ops).be.sequenceNum ∧
        (w0.exec al ops).started = (w1.exec al ops).started := by
  induction ops with
  | nil => intro w0 w1 _ _ _ _ _ _ hs hst; exact ⟨hs, hst⟩
  | cons op ops ih =>
    intro w0 w1 hc0 hc1 a0 a1 b0 b1 hs hst
    obtain ⟨p1, p2, -, p4, p5⟩ := small_step al w0 op hc0 a0 a1
    obtain ⟨q1, q2, -, q4, q5⟩ := small_step al w1 op hc1 b0 b1
    have hopen : opensBatch w0.be op = opensBatch w1.be op := by
      cases op <;> simp [opensBatch, hc0, hc1]
    apply ih (w0.step al op) (w1.step al op) p1 q1 (by rw [p2]; exact a0) (by rw [p2]; exact a1)
      (by rw [q2]; exact b0) (by rw [q2]; exact b1)
    · rw [p4, q4, hopen, hs]
    · rw [p5, q5, hst, hs]

/-- C19: `NewExecutor` stores `MaxSize` as it is given. An executor built with
`MaxSize` 0 and one built with `MaxSize` 1 (same `MaxLinger`), taken through the same
steps, agree after every step (after the first `n` steps, for every `n`): the same
goroutines have been started (the same batches dispatched, in the same order, and the
same timers), `sequenceNum` is the same, no batch is open in either, and neither has
panicked; the batches dispatched hold the submissions one by one, in order. -/
theorem maxSize_zero_like_one {T F : Type} (al : Alloc) (linger : Int) (ops : List (Op T F))
    (n : Nat) :
    (∀ opts : BatchOpts, (NewExecutor opts : BatchExecutor T F).maxSize = opts.MaxSize) ∧
    ((World.init { MaxSize := 0, MaxLinger := linger }).exec al (ops.take n)).started
      = ((World.init { MaxSize := 1, MaxLinger := linger }).exec al (ops.take n)
          : World T F).started ∧
    ((World.init { MaxSize := 0, MaxLinger := linger }).exec al (ops.take n)).dispatched
      = ((World.init { MaxSize := 1, MaxLinger := linger }).exec al (ops.take n)
          : World T F).dispatched ∧
    ((World.init { MaxSize := 0, MaxLinger := linger }).exec al (ops.take n)).be.sequenceNum
      = ((World.init { MaxSize := 1, MaxLinger := linger }).exec al (ops.take n)
          : World T F).be.sequenceNum ∧
    ((World.init { MaxSize := 0, MaxLinger := linger }).exec al (ops.take n)).be.currentBatch
      = ((World.init { MaxSize := 1, MaxLinger := linger }).exec al (ops.take n)
          : World T F).be.currentBatch ∧
    ((World.init { MaxSize := 0, MaxLinger := linger }).exec al (ops.take n)
        : World T F).be.currentBatch = none ∧
    ((World.init { MaxSize := 0, MaxLinger := linger }).exec al (ops.take n)
        : World T F).panicked = false ∧
    ((World.init { MaxSize := 1, MaxLinger := linger }).exec al (ops.take n)
        : World T F).panicked = false ∧
    ((World.init { MaxSize := 0, MaxLinger := linger }).exec al (ops.take n)
        : World T F).dispatched.map batch.content
      = (submittedPairs (ops.take n)).map alone := by
  obtain ⟨c0, -, p0, d0⟩ := small_exec al (ops.take n)
    (World.init { MaxSize := 0, MaxLinger := linger } : World T F) rfl
    (by show (0 : Int) ≤ 0; omega) (by show (0 : Int) ≤ 1; omega)
  obtain ⟨c1, -, p1, -⟩ := small_exec al (ops.take n)
    (World.init { MaxSize := 1, MaxLinger := linger } : World T F) rfl
    (by show (0 : Int) ≤ 1; omega) (by show (1 : Int) ≤ 1; omega)
  obtain ⟨hs, hst⟩ := small_exec_eq al (ops.take n)
    (World.init { MaxSize := 0, MaxLinger := linger } : World T F)
    (World.init { MaxSize := 1, MaxLinger := linger } : World T F) rfl rfl
    (by show (0 : Int) ≤ 0; omega) (by show (0 : Int) ≤ 1; omega)
    (by show (0 : Int) ≤ 1; omega) (by show (1 : Int) ≤ 1; omega) rfl rfl
  refine ⟨fun _ => rfl, hst, ?_, hs, c0.trans c1.symm, c0, p0, p1, ?_⟩
  · simp only [World.dispatched, hst]
  · rw [d0]
    simp [World.init, World.dispatched, dispatchedOf]

/-! ### One timer per batch -/

/-- C17, as amended: for every executor state whose `maxSize` is a capacity that `make`
accepts for the task type (not negative, at most `al.maxCap`): a submission starts a
linger timer exactly when no batch is open before it, and then exactly one, carrying the
id of the batch it creates, which holds the submitted task and future (and is left open
or dispatched at once); a submission into an open batch starts no timer; a timer firing
starts no timer. Over a run from a freshly constructed executor (with such a `MaxSize`)
the timers started carry, in order, the ids of the batches created (the dispatched ones,
then the open one): as many timers as batches, one per batch. -/
theorem one_timer_per_batch {T F : Type} (al : Alloc) (be : BatchExecutor T F) (task : T)
    (future : F) (batchId : Int) (opts : BatchOpts) (ops : List (Op T F))
    (hbe : 0 ≤ be.maxSize) (hbecap : be.maxSize ≤ al.maxCap)
    (hm : 0 ≤ opts.MaxSize) (hcap : opts.MaxSize ≤ al.maxCap) :
    timersOf (addTask al be task future).started
      = (if be.currentBatch.isNone then [wrapInt (be.sequenceNum + 1)] else []) ∧
    (be.currentBatch = none →
      ∃ b : batch T F, b.id = wrapInt (be.sequenceNum + 1) ∧ b.tasks = [task] ∧
        b.futures = [future] ∧
        (((addTask al be task future).be.currentBatch = some b ∧
            dispatchedOf (addTask al be task future).started = []) ∨
          ((addTask al be task future).be.currentBatch = none ∧
            dispatchedOf (addTask al be task future).started = [b]))) ∧
    timersOf (expireBatch be batchId).started = [] ∧
    ((World.init opts).exec al ops).timers
      = ((World.init opts).exec al ops).batches.map batch.id ∧
    ((World.init opts).exec al ops).timers.length
      = ((World.init opts).exec al ops).batches.length := by
  have hids := ids_exec al ops (World.init opts : World T F) hm hcap rfl
  refine ⟨timers_call al be (Op.submit task future) hbe hbecap, ?_,
    timers_call al be (Op.timer batchId) hbe hbecap, hids, ?_⟩
  · intro hcur
    refine ⟨{ id := wrapInt (be.sequenceNum + 1), tasks := [task], futures := [future] },
      rfl, rfl, rfl, ?_⟩
    rw [addTask_of_closed al be task future hcur hbe hbecap]
    split
    · right; exact ⟨rfl, rfl⟩
    · left; exact ⟨rfl, rfl⟩
  · rw [hids, List.length_map]

/-- Witness of C17: `MaxSize` 2; on the fresh executor, with no batch open, a submission
starts the one timer of batch 1; over a run of three submissions two timers were
started, for the batches 1 and 2. -/
theorem one_timer_per_batch_witness :
    (0 : Int) ≤ (NewExecutor { MaxSize := 2, MaxLinger := 0 }
        : BatchExecutor Nat Nat).maxSize ∧
    (NewExecutor { MaxSize := 2, MaxLinger := 0 } : BatchExecutor Nat Nat).maxSize
      ≤ intAlloc.maxCap ∧
    (0 : Int) ≤ 2 ∧ (2 : Int) ≤ intAlloc.maxCap ∧
    timersOf (addTask intAlloc (NewExecutor { MaxSize := 2, MaxLinger := 0 }
        : BatchExecutor Nat Nat) 10 3).started = [1] ∧
    ((World.init { MaxSize := 2, MaxLinger := 0 }).exec intAlloc
        [Op.submit 7 0, Op.submit 8 1, Op.submit 9 2] : World Nat Nat).timers = [1, 2] ∧
    ((World.init { MaxSize := 2, MaxLinger := 0 }).exec intAlloc
        [Op.submit 7 0, Op.submit 8 1, Op.submit 9 2] : World Nat Nat).batches.map batch.id
      = [1, 2] :=
  ⟨by decide, by decide, by decide, by decide,
    (one_timer_per_batch intAlloc (NewExecutor { MaxSize := 2, MaxLinger := 0 }
        : BatchExecutor Nat Nat) 10 3 0
      { MaxSize := 2, MaxLinger := 0 } [Op.submit 7 0, Op.submit 8 1, Op.submit 9 2]
      (by decide) (by decide) (by decide) (by decide)).1,
    by decide,
    ((one_timer_per_batch intAlloc (NewExecutor { MaxSize := 2, MaxLinger := 0 }
        : BatchExecutor Nat Nat) 10 3 0
      { MaxSize := 2, MaxLinger := 0 } [Op.submit 7 0, Op.submit 8 1, Op.submit 9 2]
      (by decide) (by decide) (by decide) (by decide)).2.2.2.1).symm.trans (by decide)⟩

/-- C17 as stated fails: on a fresh executor with `MaxSize` 2^62 and tasks of 8 bytes no
batch is open, yet a submission starts no timer: it panics in `make`, before the
statement `go be.expireBatch(b.id)`. -/
theorem no_timer_when_capacity_rejected :
    (NewExecutor { MaxSize := 2 ^ 62, MaxLinger := 0 }
        : BatchExecutor Nat Nat).currentBatch = none ∧
    timersOf (addTask intAlloc (NewExecutor { MaxSize := 2 ^ 62, MaxLinger := 0 }
        : BatchExecutor Nat Nat) 5 0).started = [] ∧
    (addTask intAlloc (NewExecutor { MaxSize := 2 ^ 62, MaxLinger := 0 }
        : BatchExecutor Nat Nat) 5 0).val = none := by
  refine ⟨by decide, by decide, by decide⟩

/-! ### Batch sizes -/

/-- One call with `maxSize` at least 1, on an open batch of at least one and fewer than
`maxSize` tasks: the batches it dispatches hold between 1 and `maxSize` tasks, and the
batch it leaves open at least one and fewer than `maxSize`. -/
theorem sizes_call {T F : Type} (al : Alloc) (be : BatchExecutor T F) (op : Op T F)
    (hm : 1 ≤ be.maxSize) (h : OpenSized be) :
    (∀ d ∈ dispatchedOf (op.call al be).started,
        1 ≤ d.tasks.length ∧ (d.tasks.length : Int) ≤ be.maxSize) ∧
      OpenSized (op.call al be).be := by
  cases op with
  | submit task future =>
    cases hcur : be.currentBatch with
    | some b =>
      obtain ⟨hb1, hb2⟩ := h b hcur
      have hlen : (b.add task future).tasks.length = b.tasks.length + 1 := by
        simp [batch.add]
      simp only [Op.call, addTask_of_open al be b task future hcur]
      split
      · refine ⟨?_, ?_⟩
        · intro d hd
          simp only [dispatchedOf, List.filterMap_cons, Goroutine.batch?, List.filterMap_nil,
            List.mem_singleton] at hd
          subst hd
          rw [hlen]
          exact ⟨by omega, by push_cast; omega⟩
        · intro c hc; simp at hc
      · rename_i hnot
        refine ⟨?_, ?_⟩
        · intro d hd; simp [dispatchedOf] at hd
        · intro c hc
          simp only [Option.some.injEq] at hc
          subst hc
          rw [hlen] at hnot ⊢
          exact ⟨by omega, by push_cast at hnot ⊢; omega⟩
    | none =>
      by_cases hrej : be.maxSize < 0 ∨ al.maxCap < be.maxSize
      · simp only [Op.call, addTask_of_rejected al be task future hcur hrej]
        refine ⟨fun d hd => by simp [dispatchedOf] at hd, ?_⟩
        intro c hc
        rw [hcur] at hc
        cases hc
      simp only [Op.call, addTask_of_closed al be task future hcur (by omega) (by omega)]
      split
      · refine ⟨?_, ?_⟩
        · intro d hd
          simp only [dispatchedOf, List.filterMap_cons, Goroutine.batch?,
            List.filterMap_nil, List.mem_singleton] at hd
          subst hd
          exact ⟨by simp, by simp only [List.length_singleton]; push_cast; omega⟩
        · intro c hc; simp at hc
      · rename_i hnot
        refine ⟨?_, ?_⟩
        · intro d hd; simp [dispatchedOf, Goroutine.batch?] at hd
        · intro c hc
          simp only [Option.some.injEq] at hc
          subst hc
          exact ⟨by simp, by simp only [List.length_singleton]; push_cast; omega⟩
  | timer batchId =>
    cases hcur : be.currentBatch with
    | some b =>
      obtain ⟨hb1, hb2⟩ := h b hcur
      by_cases hid : b.id = batchId
      · subst hid
        simp only [Op.call, expireBatch, hcur, if_true]
        refine ⟨?_, ?_⟩
        · intro d hd
          simp only [dispatchedOf, List.filterMap_cons, Goroutine.batch?, List.filterMap_nil,
            List.mem_singleton] at hd
          subst hd
          exact ⟨hb1, by omega⟩
        · intro c hc; simp at hc
      · simp only [Op.call, expireBatch, hcur, hid, if_false]
        exact ⟨fun d hd => by simp [dispatchedOf] at hd, h⟩
    | none =>
      simp only [Op.call, expireBatch, hcur]
      exact ⟨fun d hd => by simp [dispatchedOf] at hd, h⟩

/-- A run with `maxSize` at least 1 keeps the batch sizes within bounds. -/
theorem sizes_exec {T F : Type} (al : Alloc) (ops : List (Op T F)) :
    ∀ w : World T F, 1 ≤ w.be.maxSize →
      (∀ d ∈ w.dispatched, 1 ≤ d.tasks.length ∧ (d.tasks.length : Int) ≤ w.be.maxSize) →
      OpenSized w.be →
      (∀ d ∈ (w.exec al ops).dispatched,
          1 ≤ d.tasks.length ∧ (d.tasks.length : Int) ≤ w.be.maxSize) ∧
        OpenSized (w.exec al ops).be := by
  induction ops with
  | nil => intro w _ hd ho; exact ⟨hd, ho⟩
  | cons op ops ih =>
    intro w hm hd ho
    obtain ⟨hd1, ho1⟩ := sizes_call al w.be op hm ho
    have hmax : (w.step al op).be.maxSize = w.be.maxSize := maxSize_call al w.be op
    have := ih (w.step al op) (by rw [hmax]; exact hm)
      (by
        intro d hmem
        rw [dispatched_step] at hmem
        rw [hmax]
        rcases List.mem_append.mp hmem with hmem | hmem
        · exact hd d hmem
        · exact hd1 d hmem)
      ho1
    rw [hmax] at this
    exact this

/-- C18: for `MaxSize` at least 1, in every state reached from a freshly constructed
executor by submissions and timer firings, the open batch, if any, holds at least one
task and strictly fewer than `MaxSize`, and every batch handed to `runBatch` holds at
least one task and at most `MaxSize`: the bulk function is never called on an empty task
sequence nor on more than `MaxSize` tasks. -/
theorem batch_size_bounds {T F : Type} (al : Alloc) (opts : BatchOpts) (ops : List (Op T F))
    (hm : 1 ≤ opts.MaxSize) :
    (∀ c, ((World.init opts).exec al ops).be.currentBatch = some c →
      1 ≤ c.tasks.length ∧ (c.tasks.length : Int) < opts.MaxSize) ∧
    (∀ d ∈ ((World.init opts).exec al ops).dispatched,
      1 ≤ d.tasks.length ∧ (d.tasks.length : Int) ≤ opts.MaxSize) := by
  have hd0 : ∀ d ∈ (World.init opts : World T F).dispatched,
      1 ≤ d.tasks.length ∧
        (d.tasks.length : Int) ≤ (World.init opts : World T F).be.maxSize := by
    intro d hd; simp [World.init, World.dispatched, dispatchedOf] at hd
  have ho0 : OpenSized (World.init opts : World T F).be := by
    intro c hc; simp [World.init, NewExecutor] at hc
  obtain ⟨hd, ho⟩ := sizes_exec al ops (World.init opts : World T F) hm hd0 ho0
  have hmax : ((World.init opts).exec al ops : World T F).be.maxSize = opts.MaxSize :=
    maxSize_exec al ops (World.init opts)
  refine ⟨?_, hd⟩
  intro c hc
  have := ho c hc
  rw [hmax] at this
  exact this

/-- Witness of C18: `MaxSize` 3; a batch of three closed by size, a batch of one closed by
its timer, and a batch of two still open. -/
theorem batch_size_bounds_witness :
    (1 : Int) ≤ 3 ∧
    ((World.init { MaxSize := 3, MaxLinger := 0 }).exec intAlloc
        [Op.submit 1 0, Op.submit 2 1, Op.submit 3 2, Op.submit 4 3, Op.timer 2,
          Op.submit 5 4, Op.submit 6 5] : World Nat Nat).dispatched.map batch.tasks
      = [[1, 2, 3], [4]] ∧
    (∀ c, ((World.init { MaxSize := 3, MaxLinger := 0 }).exec intAlloc
        [Op.submit 1 0, Op.submit 2 1, Op.submit 3 2, Op.submit 4 3, Op.timer 2,
          Op.submit 5 4, Op.submit 6 5] : World Nat Nat).be.currentBatch = some c →
      1 ≤ c.tasks.length ∧ (c.tasks.length : Int) < 3) ∧
    (∀ d ∈ ((World.init { MaxSize := 3, MaxLinger := 0 }).exec intAlloc
        [Op.submit 1 0, Op.submit 2 1, Op.submit 3 2, Op.submit 4 3, Op.timer 2,
          Op.submit 5 4, Op.submit 6 5] : World Nat Nat).dispatched,
      1 ≤ d.tasks.length ∧ (d.tasks.length : Int) ≤ 3) :=
  ⟨by decide, by decide,
    batch_size_bounds intAlloc { MaxSize := 3, MaxLinger := 0 }
      [Op.submit 1 0, Op.submit 2 1, Op.submit 3 2, Op.submit 4 3, Op.timer 2,
        Op.submit 5 4, Op.submit 6 5] (by decide)⟩

end Batch
